import Mathlib

/-!
# Tile-location cache and atomic-region tracker (`lib/pythontiledsurface.c`)

A shallow embedding of `begin_atomic`, `end_atomic`, `tile_request_start` and
`mypaint_python_tiled_surface_new`.

Modelling conventions.

* The C `int` fields `tileMemoryValid`, `tileMemoryWrite`, `atomic` and the tile
  coordinates are `Int`.  The only arithmetic on them is `atomic++`, `atomic--`
  (behind `assert(atomic > 0)`), `tileMemoryValid++` (behind `< TILE_MEMORY_SIZE`)
  and `(tileMemoryWrite + 1) % TILE_MEMORY_SIZE`.  `atomic++` at `INT_MAX` is
  signed overflow, undefined in C: it is the fault `Fault.overflow`.
* `tileMemory` is the array of exactly `TILE_MEMORY_SIZE` slots; an access with
  an index outside `0 .. 7` is the fault `Fault.outOfBounds`, a failed `assert`
  is the fault `Fault.assertion`.
* The host (Python) side is an environment: what `PyErr_Occurred()` and
  `get_tile_memory` answer is an argument of `tile_request_start`, what
  `notify_observers` hands back is an argument of `end_atomic`, and every method
  call made on `py_obj` is recorded (`PyCall`).  `end_atomic` passes the result
  of `notify_observers` to `Py_DECREF` unchecked: a `NULL` result is
  dereferenced, the fault `Fault.nullDeref`.  The rectangle handed back by
  `mypaint_tiled_surface_end_atomic` is an argument of `end_atomic`.  The
  diagnostic `printf` is not modelled.
* `Hosted` adds the host's error indicator as state, for call sequences in which
  the answers of `PyErr_Occurred()` and `notify_observers` follow from what
  happened before.
-/

namespace PythonTiledSurface

/-- Number of slots of the tile-location cache (`#define TILE_MEMORY_SIZE 8`). -/
def TILE_MEMORY_SIZE : Nat := 8

/-- Value of a `uint16_t *`: an address, `0` being `NULL`. -/
abbrev Ptr := Nat

/-- The null pointer. -/
def NULL : Ptr := 0

/-- One cache slot (`typedef struct { int tx, ty; uint16_t * rgba_p; } TileMemory`). -/
structure TileMemory where
  tx : Int
  ty : Int
  rgba_p : Ptr
deriving DecidableEq, Repr

/-- Rectangle returned by the base end-atomic primitive. -/
structure MyPaintRectangle where
  x : Int
  y : Int
  width : Int
  height : Int
deriving DecidableEq, Repr

/-- Fields of `struct _MyPaintPythonTiledSurface` that the three operations
read or write. -/
structure MyPaintPythonTiledSurface where
  tileMemory : Fin TILE_MEMORY_SIZE → TileMemory
  tileMemoryValid : Int
  tileMemoryWrite : Int
  atomic : Int

/-- Input fields of `MyPaintTiledSurfaceTileRequestData` read by
`tile_request_start`; the output field `buffer` is part of `RequestResult`. -/
structure MyPaintTiledSurfaceTileRequestData where
  tx : Int
  ty : Int
  readonly : Bool
deriving DecidableEq, Repr

/-- Method calls made on `py_obj`. -/
inductive PyCall where
  | notify_observers (x y width height : Int)
  | get_tile_memory (tx ty : Int) (readonly : Bool)
deriving DecidableEq, Repr

/-- Ways in which a call does not return: a failed `assert`, an array index
outside `0 .. 7`, signed overflow of `atomic++`, and `Py_DECREF` of a `NULL`
result, reached after the host calls `calls` were made. -/
inductive Fault where
  | assertion
  | outOfBounds
  | overflow
  | nullDeref (calls : List PyCall)
deriving DecidableEq, Repr

/-- Largest value of a C `int`. -/
def INT_MAX : Int := 2147483647

/-- Outcome of `end_atomic`: the surface afterwards, the returned rectangle and
the host calls made. -/
structure EndResult where
  surface : MyPaintPythonTiledSurface
  ret : MyPaintRectangle
  calls : List PyCall

/-- Outcome of `tile_request_start`: the surface afterwards, the value stored in
`request->buffer` and the host calls made. -/
structure RequestResult where
  surface : MyPaintPythonTiledSurface
  buffer : Ptr
  calls : List PyCall

/-- Array store `tileMemory[i] = e`. -/
def setSlot (m : Fin TILE_MEMORY_SIZE → TileMemory) (i : Fin TILE_MEMORY_SIZE)
    (e : TileMemory) : Fin TILE_MEMORY_SIZE → TileMemory :=
  fun j => if j = i then e else m j

/-- The surface after `mypaint_python_tiled_surface_new`: the three counters are
zeroed, the slots of the freshly allocated block keep whatever they held
(`garbage`). -/
def mypaint_python_tiled_surface_new (garbage : Fin TILE_MEMORY_SIZE → TileMemory) :
    MyPaintPythonTiledSurface :=
  { tileMemory := garbage, tileMemoryValid := 0, tileMemoryWrite := 0, atomic := 0 }

/-- The statement `self->atomic++` on a C `int`. -/
def atomic_increment (self : MyPaintPythonTiledSurface) :
    Except Fault MyPaintPythonTiledSurface :=
  if self.atomic < INT_MAX then .ok { self with atomic := self.atomic + 1 }
  else .error Fault.overflow

/-- `begin_atomic`: the consistency assertion when the counter is 0, then
`atomic++`. -/
def begin_atomic (self : MyPaintPythonTiledSurface) : Except Fault MyPaintPythonTiledSurface :=
  if self.atomic = 0 then
    if self.tileMemoryValid = 0 then atomic_increment self
    else .error Fault.assertion
  else atomic_increment self

/-- `end_atomic`, with `bbox` the rectangle returned by
`mypaint_tiled_surface_end_atomic` and `res` what the call of `notify_observers`
hands back where the code makes it (`none` for `NULL`).  The code runs
`Py_DECREF(res)` without a check, so a `NULL` result is dereferenced: the fault
`Fault.nullDeref`, after the one call. -/
def end_atomic (self : MyPaintPythonTiledSurface) (bbox : MyPaintRectangle)
    (res : Option Unit) : Except Fault EndResult :=
  if 0 < self.atomic then
    let self1 : MyPaintPythonTiledSurface := { self with atomic := self.atomic - 1 }
    if self1.atomic = 0 then
      let self2 : MyPaintPythonTiledSurface :=
        { self1 with tileMemoryValid := 0, tileMemoryWrite := 0 }
      if 0 < bbox.width then
        match res with
        | some _ =>
          .ok { surface := self2, ret := bbox,
                calls := [PyCall.notify_observers bbox.x bbox.y bbox.width bbox.height] }
        | none =>
          .error (Fault.nullDeref
            [PyCall.notify_observers bbox.x bbox.y bbox.width bbox.height])
      else .ok { surface := self2, ret := bbox, calls := [] }
    else .ok { surface := self1, ret := bbox, calls := [] }
  else .error Fault.assertion

/-- The lookup loop `for (i = 0; i < tileMemoryValid; i++)` of
`tile_request_start`, entered at index `i` with `n` iterations left:
`some p` when the loop returns early with `request->buffer = p`, `none` when it
runs to its end. -/
def lookupLoop (m : Fin TILE_MEMORY_SIZE → TileMemory) (tx ty : Int) :
    Nat → Nat → Except Fault (Option Ptr)
  | 0, _ => .ok none
  | n + 1, i =>
    if h : i < TILE_MEMORY_SIZE then
      if (m ⟨i, h⟩).tx = tx ∧ (m ⟨i, h⟩).ty = ty then .ok (some (m ⟨i, h⟩).rgba_p)
      else lookupLoop m tx ty n (i + 1)
    else .error Fault.outOfBounds

/-- The whole lookup loop: `tileMemoryValid` iterations from index 0 (none when
`tileMemoryValid <= 0`). -/
def lookup (self : MyPaintPythonTiledSurface) (tx ty : Int) : Except Fault (Option Ptr) :=
  lookupLoop self.tileMemory tx ty self.tileMemoryValid.toNat 0

/-- The caching block of `tile_request_start` (`if (!readonly) { ... }`): bump
`tileMemoryValid` below the capacity, store the entry at `tileMemoryWrite`,
advance `tileMemoryWrite` with C's `%`. -/
def cacheInsert (self : MyPaintPythonTiledSurface) (tx ty : Int) (rgba_p : Ptr) :
    Except Fault MyPaintPythonTiledSurface :=
  let valid := if self.tileMemoryValid < TILE_MEMORY_SIZE then self.tileMemoryValid + 1
               else self.tileMemoryValid
  if h : 0 ≤ self.tileMemoryWrite ∧ self.tileMemoryWrite.toNat < TILE_MEMORY_SIZE then
    .ok { tileMemory := setSlot self.tileMemory ⟨self.tileMemoryWrite.toNat, h.2⟩
                          { tx := tx, ty := ty, rgba_p := rgba_p },
          tileMemoryValid := valid,
          tileMemoryWrite := Int.tmod (self.tileMemoryWrite + 1) TILE_MEMORY_SIZE,
          atomic := self.atomic }
  else .error Fault.outOfBounds

/-- `tile_request_start`.  `pyErr` is the answer of `PyErr_Occurred()`, `rgba`
the answer of `get_tile_memory`: `none` for a `NULL` object (exception),
`some p` for an array whose data pointer is `p`; each is consulted only where
the code reaches the corresponding call. -/
def tile_request_start (self : MyPaintPythonTiledSurface)
    (request : MyPaintTiledSurfaceTileRequestData) (pyErr : Bool) (rgba : Option Ptr) :
    Except Fault RequestResult :=
  match lookup self request.tx request.ty with
  | .error e => .error e
  | .ok (some p) => .ok { surface := self, buffer := p, calls := [] }
  | .ok none =>
    if pyErr then .ok { surface := self, buffer := NULL, calls := [] }
    else
      match rgba with
      | none =>
        .ok { surface := self, buffer := NULL,
              calls := [PyCall.get_tile_memory request.tx request.ty request.readonly] }
      | some rgba_p =>
        if !request.readonly then
          match cacheInsert self request.tx request.ty rgba_p with
          | .error e => .error e
          | .ok self1 =>
            .ok { surface := self1, buffer := rgba_p,
                  calls := [PyCall.get_tile_memory request.tx request.ty request.readonly] }
        else
          .ok { surface := self, buffer := rgba_p,
                calls := [PyCall.get_tile_memory request.tx request.ty request.readonly] }

/-- A call of one of the three operations together with what the environment
answers during it. -/
inductive Op where
  | begin_atomic
  | end_atomic (bbox : MyPaintRectangle) (res : Option Unit)
  | tile_request_start (request : MyPaintTiledSurfaceTileRequestData) (pyErr : Bool)
      (rgba : Option Ptr)

/-- One call: the surface afterwards and the host calls it made. -/
def step (self : MyPaintPythonTiledSurface) : Op → Except Fault (MyPaintPythonTiledSurface × List PyCall)
  | Op.begin_atomic =>
    match begin_atomic self with
    | .error e => .error e
    | .ok s => .ok (s, [])
  | Op.end_atomic bbox res =>
    match end_atomic self bbox res with
    | .error e => .error e
    | .ok r => .ok (r.surface, r.calls)
  | Op.tile_request_start request pyErr rgba =>
    match tile_request_start self request pyErr rgba with
    | .error e => .error e
    | .ok r => .ok (r.surface, r.calls)

/-- A sequence of calls, stopping at the first fault: the final surface and, per
call, the host calls it made. -/
def run (self : MyPaintPythonTiledSurface) :
    List Op → Except Fault (MyPaintPythonTiledSurface × List (List PyCall))
  | [] => .ok (self, [])
  | op :: ops =>
    match step self op with
    | .error e => .error e
    | .ok (s, cs) =>
      match run s ops with
      | .error e => .error e
      | .ok (s1, tr) => .ok (s1, cs :: tr)

/-! ## Predicates used in the statements -/

/-- The comparison made by the lookup loop on one slot. -/
def slotMatches (e : TileMemory) (tx ty : Int) : Prop := e.tx = tx ∧ e.ty = ty

instance (e : TileMemory) (tx ty : Int) : Decidable (slotMatches e tx ty) := by
  unfold slotMatches; infer_instance

/-- Both counters index inside the array, and below the capacity the write
cursor is the validity count. -/
def CacheInv (s : MyPaintPythonTiledSurface) : Prop :=
  0 ≤ s.tileMemoryValid ∧ s.tileMemoryValid ≤ TILE_MEMORY_SIZE ∧
  0 ≤ s.tileMemoryWrite ∧ s.tileMemoryWrite < TILE_MEMORY_SIZE ∧
  (s.tileMemoryValid < TILE_MEMORY_SIZE → s.tileMemoryWrite = s.tileMemoryValid)

/-- Every valid slot holds the location the store function `f` gives for the
slot's coordinates. -/
def StoreInv (f : Int → Int → Ptr) (s : MyPaintPythonTiledSurface) : Prop :=
  ∀ i : Fin TILE_MEMORY_SIZE, (i.val : Int) < s.tileMemoryValid →
    (s.tileMemory i).rgba_p = f (s.tileMemory i).tx (s.tileMemory i).ty

/-- During the call `op` the store behaves as the total function `f`: no host
error is pending and `get_tile_memory` for `(tx, ty)` answers `f tx ty`,
whatever the readonly flag. -/
def AnsweredBy (f : Int → Int → Ptr) : Op → Prop
  | Op.tile_request_start request pyErr rgba =>
    pyErr = false ∧ rgba = some (f request.tx request.ty)
  | _ => True

/-- Reference dispatch without a cache, after the words of the specification
("request the buffer location from the external store collaborator ... fail the
whole operation, returning a null location, if the store reports an error"):
always asks the store and hands back what it answers. -/
def uncached_dispatch (request : MyPaintTiledSurfaceTileRequestData) (pyErr : Bool)
    (rgba : Option Ptr) : Ptr × List PyCall :=
  if pyErr then (NULL, [])
  else
    match rgba with
    | none => (NULL, [PyCall.get_tile_memory request.tx request.ty request.readonly])
    | some p => (p, [PyCall.get_tile_memory request.tx request.ty request.readonly])

/-- A block of eight slots all holding `(0, 0, NULL)`. -/
def zeroSlots : Fin TILE_MEMORY_SIZE → TileMemory :=
  fun _ => { tx := 0, ty := 0, rgba_p := NULL }

/-- A store function used in examples: tile `(tx, ty)` lives at
`4096 * (|tx| + 10 * |ty| + 1)`. -/
def gridStore (tx ty : Int) : Ptr := 4096 * (tx.natAbs + 10 * ty.natAbs + 1)

/-- A surface inside one atomic region whose cache is empty. -/
def emptyOpenSurface : MyPaintPythonTiledSurface :=
  { tileMemory := zeroSlots, tileMemoryValid := 0, tileMemoryWrite := 0, atomic := 1 }

/-- A surface inside one atomic region whose cache holds tile `(2, 3)` at
location `gridStore 2 3` in slot 0. -/
def oneTileSurface : MyPaintPythonTiledSurface :=
  { tileMemory := setSlot zeroSlots ⟨0, by decide⟩ { tx := 2, ty := 3, rgba_p := gridStore 2 3 },
    tileMemoryValid := 1, tileMemoryWrite := 1, atomic := 1 }

/-- The call sequence `begin_atomic; tile_request_start (2, 3)` for writing, the
store answering `gridStore 2 3`. -/
def oneTileOps : List Op :=
  [Op.begin_atomic,
   Op.tile_request_start { tx := 2, ty := 3, readonly := false } false (some (gridStore 2 3))]

/-- A nested stroke: two `begin_atomic`, a write request, an inner `end_atomic`
whose rectangle has positive width, and the outer `end_atomic` with rectangle
`(32, 48, 16, 16)`. -/
def nestedOps : List Op :=
  [Op.begin_atomic, Op.begin_atomic,
   Op.tile_request_start { tx := 2, ty := 3, readonly := false } false (some (gridStore 2 3)),
   Op.end_atomic { x := 0, y := 0, width := 64, height := 64 } (some ()),
   Op.end_atomic { x := 32, y := 48, width := 16, height := 16 } (some ())]

/-- No `end_atomic` of the sequence is without an open `begin_atomic`, `d`
regions being open at its start.  Every well-nested sequence, and every
beginning of one, satisfies this with `d = 0`. -/
def matched : Nat → List Op → Bool
  | _, [] => true
  | d, Op.begin_atomic :: ops => matched (d + 1) ops
  | d, Op.end_atomic _ _ :: ops => decide (0 < d) && matched (d - 1) ops
  | d, Op.tile_request_start _ _ _ :: ops => matched d ops

/-- Every tile request of the sequence is issued between a `begin_atomic` and
its `end_atomic`, `d` regions being open at its start. -/
def requestsInside : Nat → List Op → Bool
  | _, [] => true
  | d, Op.begin_atomic :: ops => requestsInside (d + 1) ops
  | d, Op.end_atomic _ _ :: ops => requestsInside (d - 1) ops
  | d, Op.tile_request_start _ _ _ :: ops => decide (0 < d) && requestsInside d ops

/-- The `notify_observers` calls among the host calls of one operation. -/
def notifications : List PyCall → List PyCall
  | [] => []
  | PyCall.notify_observers x y w h :: cs => PyCall.notify_observers x y w h :: notifications cs
  | PyCall.get_tile_memory _ _ _ :: cs => notifications cs

/-- The notifications the specification prescribes, call by call, `d` regions
being open at the start: one `notify_changed` with the returned rectangle from
the `end` that closes a top-level region (depth 1 to 0) when that rectangle has
positive width, nothing from any other call. -/
def expectedNotifications : Nat → List Op → List (List PyCall)
  | _, [] => []
  | d, Op.begin_atomic :: ops => [] :: expectedNotifications (d + 1) ops
  | d, Op.end_atomic bbox _ :: ops =>
    (if d = 1 ∧ 0 < bbox.width then
        [PyCall.notify_observers bbox.x bbox.y bbox.width bbox.height]
      else []) :: expectedNotifications (d - 1) ops
  | d, Op.tile_request_start _ _ _ :: ops => [] :: expectedNotifications d ops

/-- Coordinates of a slot. -/
def coord (e : TileMemory) : Int × Int := (e.tx, e.ty)

/-- A tile request of the eviction scenario: `fresh tx ty p` is a successful
non-readonly request for `(tx, ty)` (no host error pending, the store answers
`p`); `again` is any further request, which the scenario requires to hit. -/
inductive Access where
  | fresh (tx ty : Int) (rgba_p : Ptr)
  | again (request : MyPaintTiledSurfaceTileRequestData) (pyErr : Bool) (rgba : Option Ptr)

/-- The call an access stands for. -/
def accessOp : Access → Op
  | Access.fresh tx ty p =>
    Op.tile_request_start { tx := tx, ty := ty, readonly := false } false (some p)
  | Access.again request pyErr rgba => Op.tile_request_start request pyErr rgba

/-- The tiles `c_1, c_2, ...` requested by the `fresh` accesses, in order, each
with the location the store answered. -/
def freshTiles : List Access → List TileMemory
  | [] => []
  | Access.fresh tx ty p :: as => { tx := tx, ty := ty, rgba_p := p } :: freshTiles as
  | Access.again _ _ _ :: as => freshTiles as

/-- The lookup loop finds `(tx, ty)`. -/
def isHit (s : MyPaintPythonTiledSurface) (tx ty : Int) : Bool :=
  match lookup s tx ty with
  | .ok (some _) => true
  | _ => false

/-- Every `again` access of the sequence hits the cache when it is issued. -/
def againHit : MyPaintPythonTiledSurface → List Access → Bool
  | _, [] => true
  | s, Access.fresh tx ty p :: as =>
    match step s (accessOp (Access.fresh tx ty p)) with
    | .ok (s1, _) => againHit s1 as
    | .error _ => false
  | s, Access.again request pyErr rgba :: as =>
    isHit s request.tx request.ty &&
    match step s (accessOp (Access.again request pyErr rgba)) with
    | .ok (s1, _) => againHit s1 as
    | .error _ => false

/-- The cache holds exactly the last (at most eight) tiles of `L`, tile number
`j` (from 0) in slot `j mod 8`. -/
def Filled (s : MyPaintPythonTiledSurface) (L : List TileMemory) : Prop :=
  s.tileMemoryValid = ((min L.length 8 : Nat) : Int) ∧
  s.tileMemoryWrite = ((L.length % 8 : Nat) : Int) ∧
  ∀ (j : Nat) (e : TileMemory), L[j]? = some e → L.length ≤ j + 8 →
    s.tileMemory ⟨j % 8, Nat.mod_lt j (by decide)⟩ = e

/-- The nine-tile scenario: tiles `(0,0) .. (8,0)` are written in turn, tile
`(0,0)` being touched again after the third and after the eighth write. -/
def nineTiles : List Access :=
  [Access.fresh 0 0 4096, Access.fresh 1 0 8192, Access.fresh 2 0 12288,
   Access.again { tx := 0, ty := 0, readonly := true } false none,
   Access.fresh 3 0 16384, Access.fresh 4 0 20480, Access.fresh 5 0 24576,
   Access.fresh 6 0 28672, Access.fresh 7 0 32768,
   Access.again { tx := 0, ty := 0, readonly := false } false none,
   Access.fresh 8 0 36864]


/-- Every tile request of the sequence that can fill the cache (non-readonly,
no host error pending, resolved by the store) is issued inside an atomic region,
`d` regions being open at the start of the sequence. -/
def cachingInside : Nat → List Op → Bool
  | _, [] => true
  | d, Op.begin_atomic :: ops => cachingInside (d + 1) ops
  | d, Op.end_atomic _ _ :: ops => cachingInside (d - 1) ops
  | d, Op.tile_request_start request pyErr rgba :: ops =>
    (decide (0 < d) || request.readonly || pyErr || rgba.isNone) && cachingInside d ops

/-- The call is not a tile request for `(tx, ty)`. -/
def Avoids (tx ty : Int) : Op → Prop
  | Op.tile_request_start request _ _ => ¬ (request.tx = tx ∧ request.ty = ty)
  | _ => True

/-- No valid slot holds `(tx, ty)`. -/
def NoEntry (tx ty : Int) (s : MyPaintPythonTiledSurface) : Prop :=
  ∀ i : Fin TILE_MEMORY_SIZE, (i.val : Int) < s.tileMemoryValid →
    ¬ slotMatches (s.tileMemory i) tx ty

/-- The valid slots hold pairwise distinct coordinates. -/
def DistinctKeys (s : MyPaintPythonTiledSurface) : Prop :=
  ∀ i j : Fin TILE_MEMORY_SIZE, (i.val : Int) < s.tileMemoryValid →
    (j.val : Int) < s.tileMemoryValid →
    coord (s.tileMemory i) = coord (s.tileMemory j) → i = j

/-- The surface after a write request for tile `(2, 3)` issued outside any atomic
region on a new surface: the tile is cached while `atomic = 0`. -/
def idleCachedSurface : MyPaintPythonTiledSurface :=
  { tileMemory := setSlot zeroSlots ⟨0, by decide⟩ { tx := 2, ty := 3, rgba_p := gridStore 2 3 },
    tileMemoryValid := 1, tileMemoryWrite := 1, atomic := 0 }

/-- The surface after `begin; write (2, 3); end; begin`: the cache is logically
empty, slot 0 still holds the entry of the closed region. -/
def reopenedSurface : MyPaintPythonTiledSurface :=
  { tileMemory := setSlot zeroSlots ⟨0, by decide⟩ { tx := 2, ty := 3, rgba_p := gridStore 2 3 },
    tileMemoryValid := 0, tileMemoryWrite := 0, atomic := 1 }

/-- Every `notify_observers` call of the sequence hands back an object: no
`end_atomic` of the sequence is given a `NULL` result. -/
def notifyAnswered : List Op → Bool
  | [] => true
  | Op.end_atomic _ res :: ops => res.isSome && notifyAnswered ops
  | _ :: ops => notifyAnswered ops

/-- Every `begin_atomic` of the sequence is called with fewer than `INT_MAX`
regions open, `d` regions being open at the start of the sequence. -/
def shallow : Nat → List Op → Bool
  | _, [] => true
  | d, Op.begin_atomic :: ops => decide ((d : Int) < INT_MAX) && shallow (d + 1) ops
  | d, Op.end_atomic _ _ :: ops => shallow (d - 1) ops
  | d, Op.tile_request_start _ _ _ :: ops => shallow d ops

/-- The surface together with the host's error indicator, which is what
`PyErr_Occurred()` reports. -/
structure Hosted where
  surface : MyPaintPythonTiledSurface
  errorPending : Bool

/-- A call as one host drives it: the error indicator is the host's state and no
longer an argument; `rgba` is what `get_tile_memory` answers when asked,
`raises` says whether `notify_observers` itself raises when called. -/
inductive HostedOp where
  | begin_atomic
  | end_atomic (bbox : MyPaintRectangle) (raises : Bool)
  | tile_request_start (request : MyPaintTiledSurfaceTileRequestData) (rgba : Option Ptr)

/-- One call under the host's rules for its error indicator: `PyErr_Occurred()`
reports it; a `get_tile_memory` that fails sets it; nothing in this code clears
it; and a method call entered while it is set is handed back as failed (`NULL`),
as is one that raises. -/
def hostedStep (h : Hosted) : HostedOp → Except Fault (Hosted × List PyCall)
  | HostedOp.begin_atomic =>
    match begin_atomic h.surface with
    | .error e => .error e
    | .ok s => .ok ({ surface := s, errorPending := h.errorPending }, [])
  | HostedOp.end_atomic bbox raises =>
    match end_atomic h.surface bbox (if h.errorPending || raises then none else some ()) with
    | .error e => .error e
    | .ok r => .ok ({ surface := r.surface, errorPending := h.errorPending }, r.calls)
  | HostedOp.tile_request_start request rgba =>
    match tile_request_start h.surface request h.errorPending rgba with
    | .error e => .error e
    | .ok r =>
      .ok ({ surface := r.surface,
             errorPending := h.errorPending || (!r.calls.isEmpty && rgba.isNone) }, r.calls)

/-- A sequence of calls on one host, stopping at the first fault. -/
def hostedRun (h : Hosted) : List HostedOp → Except Fault (Hosted × List (List PyCall))
  | [] => .ok (h, [])
  | op :: ops =>
    match hostedStep h op with
    | .error e => .error e
    | .ok (h1, cs) =>
      match hostedRun h1 ops with
      | .error e => .error e
      | .ok (h2, tr) => .ok (h2, cs :: tr)

/-- A new surface on a host with no error pending. -/
def newHosted : Hosted :=
  { surface := mypaint_python_tiled_surface_new zeroSlots, errorPending := false }

/-- A stroke in which the store fails once: `begin`, a write request for `(2, 3)`
that the store resolves, a write request for `(9, 9)` on which `get_tile_memory`
fails, and the closing `end` with rectangle `(32, 48, 16, 16)`, whose
`notify_observers` does not raise by itself. -/
def failedStrokeOps : List HostedOp :=
  [HostedOp.begin_atomic,
   HostedOp.tile_request_start { tx := 2, ty := 3, readonly := false } (some (gridStore 2 3)),
   HostedOp.tile_request_start { tx := 9, ty := 9, readonly := false } none,
   HostedOp.end_atomic { x := 32, y := 48, width := 16, height := 16 } false]

/-- The same stroke without the failed request. -/
def plainStrokeOps : List HostedOp :=
  [HostedOp.begin_atomic,
   HostedOp.tile_request_start { tx := 2, ty := 3, readonly := false } (some (gridStore 2 3)),
   HostedOp.end_atomic { x := 32, y := 48, width := 16, height := 16 } false]

/-- A stroke whose store failure stays pending over the region boundary: `begin`,
a write request for `(2, 3)` that the store resolves, a write request for
`(9, 9)` on which `get_tile_memory` fails, the closing `end` with an empty
rectangle (no notification is due), a new `begin`, and a request for `(2, 3)`. -/
def staleErrorOps : List HostedOp :=
  [HostedOp.begin_atomic,
   HostedOp.tile_request_start { tx := 2, ty := 3, readonly := false } (some (gridStore 2 3)),
   HostedOp.tile_request_start { tx := 9, ty := 9, readonly := false } none,
   HostedOp.end_atomic { x := 0, y := 0, width := 0, height := 0 } false,
   HostedOp.begin_atomic,
   HostedOp.tile_request_start { tx := 2, ty := 3, readonly := false } (some (gridStore 2 3))]

theorem lookupLoop_hit (m : Fin TILE_MEMORY_SIZE → TileMemory) (tx ty : Int) :
    ∀ (n i : Nat) (k : Fin TILE_MEMORY_SIZE), i ≤ k.val → k.val < i + n →
      slotMatches (m k) tx ty →
      (∀ j : Fin TILE_MEMORY_SIZE, i ≤ j.val → j.val < k.val → ¬ slotMatches (m j) tx ty) →
      lookupLoop m tx ty n i = .ok (some (m k).rgba_p) := by
  intro n
  induction n with
  | zero => intro i k h1 h2; omega
  | succ n ih =>
    intro i k h1 h2 hk hfirst
    have hi : i < TILE_MEMORY_SIZE := lt_of_le_of_lt h1 k.isLt
    unfold lookupLoop
    rw [dif_pos hi]
    by_cases hik : i = k.val
    · have e : (⟨i, hi⟩ : Fin TILE_MEMORY_SIZE) = k := Fin.ext hik
      rw [e, if_pos (show (m k).tx = tx ∧ (m k).ty = ty from hk)]
    · have hlt : i < k.val := lt_of_le_of_ne h1 hik
      have hno : ¬ ((m ⟨i, hi⟩).tx = tx ∧ (m ⟨i, hi⟩).ty = ty) :=
        hfirst ⟨i, hi⟩ (le_refl i) hlt
      rw [if_neg hno]
      exact ih (i + 1) k hlt (by omega) hk (fun j hj1 hj2 => hfirst j (by omega) hj2)

theorem lookupLoop_miss (m : Fin TILE_MEMORY_SIZE → TileMemory) (tx ty : Int) :
    ∀ (n i : Nat), i + n ≤ TILE_MEMORY_SIZE →
      (∀ j : Fin TILE_MEMORY_SIZE, i ≤ j.val → j.val < i + n → ¬ slotMatches (m j) tx ty) →
      lookupLoop m tx ty n i = .ok none := by
  intro n
  induction n with
  | zero => intro i _ _; rfl
  | succ n ih =>
    intro i hb hno
    have hi : i < TILE_MEMORY_SIZE := by omega
    unfold lookupLoop
    have hni : ¬ ((m ⟨i, hi⟩).tx = tx ∧ (m ⟨i, hi⟩).ty = ty) :=
      hno ⟨i, hi⟩ (le_refl i) (by simp)
    rw [dif_pos hi, if_neg hni]
    exact ih (i + 1) (by omega) (fun j hj1 hj2 => hno j (by omega) (by omega))

theorem lookupLoop_none_inv (m : Fin TILE_MEMORY_SIZE → TileMemory) (tx ty : Int) :
    ∀ (n i : Nat), lookupLoop m tx ty n i = .ok none →
      (n = 0 ∨ i + n ≤ TILE_MEMORY_SIZE) ∧
      (∀ j : Fin TILE_MEMORY_SIZE, i ≤ j.val → j.val < i + n → ¬ slotMatches (m j) tx ty) := by
  intro n
  induction n with
  | zero => intro i _; exact ⟨Or.inl rfl, fun j h1 h2 => by omega⟩
  | succ n ih =>
    intro i h
    unfold lookupLoop at h
    by_cases hi : i < TILE_MEMORY_SIZE
    · rw [dif_pos hi] at h
      by_cases hm : (m ⟨i, hi⟩).tx = tx ∧ (m ⟨i, hi⟩).ty = ty
      · rw [if_pos hm] at h; cases h
      · rw [if_neg hm] at h
        obtain ⟨hb, hno⟩ := ih (i + 1) h
        refine ⟨Or.inr ?_, ?_⟩
        · rcases hb with hb | hb
          · subst hb; omega
          · omega
        · intro j hj1 hj2
          by_cases hji : j.val = i
          · have e : j = ⟨i, hi⟩ := Fin.ext hji
            rw [e]; exact hm
          · exact hno j (by omega) (by omega)
    · rw [dif_neg hi] at h; cases h

theorem lookupLoop_some_inv (m : Fin TILE_MEMORY_SIZE → TileMemory) (tx ty : Int) (p : Ptr) :
    ∀ (n i : Nat), lookupLoop m tx ty n i = .ok (some p) →
      ∃ k : Fin TILE_MEMORY_SIZE, i ≤ k.val ∧ k.val < i + n ∧ slotMatches (m k) tx ty ∧
        p = (m k).rgba_p ∧
        ∀ j : Fin TILE_MEMORY_SIZE, i ≤ j.val → j.val < k.val → ¬ slotMatches (m j) tx ty := by
  intro n
  induction n with
  | zero => intro i h; cases h
  | succ n ih =>
    intro i h
    unfold lookupLoop at h
    by_cases hi : i < TILE_MEMORY_SIZE
    · rw [dif_pos hi] at h
      by_cases hm : (m ⟨i, hi⟩).tx = tx ∧ (m ⟨i, hi⟩).ty = ty
      · rw [if_pos hm] at h
        injection h with h
        injection h with h
        exact ⟨⟨i, hi⟩, le_refl i, by simp, hm, h.symm, fun j h1 h2 => by
          have : j.val < i := h2
          omega⟩
      · rw [if_neg hm] at h
        obtain ⟨k, hk1, hk2, hk3, hk4, hk5⟩ := ih (i + 1) h
        refine ⟨k, by omega, by omega, hk3, hk4, ?_⟩
        intro j hj1 hj2
        by_cases hji : j.val = i
        · have e : j = ⟨i, hi⟩ := Fin.ext hji
          rw [e]; exact hm
        · exact hk5 j (by omega) hj2
    · rw [dif_neg hi] at h; cases h

theorem lookupLoop_no_fault (m : Fin TILE_MEMORY_SIZE → TileMemory) (tx ty : Int) :
    ∀ (n i : Nat), i + n ≤ TILE_MEMORY_SIZE → ∃ r, lookupLoop m tx ty n i = .ok r := by
  intro n
  induction n with
  | zero => intro i _; exact ⟨none, rfl⟩
  | succ n ih =>
    intro i hb
    have hi : i < TILE_MEMORY_SIZE := by omega
    unfold lookupLoop
    rw [dif_pos hi]
    by_cases hm : (m ⟨i, hi⟩).tx = tx ∧ (m ⟨i, hi⟩).ty = ty
    · rw [if_pos hm]; exact ⟨_, rfl⟩
    · rw [if_neg hm]; exact ih (i + 1) (by omega)

/-! ## Whole lookups -/

theorem lookup_hit (s : MyPaintPythonTiledSurface) (tx ty : Int) (k : Fin TILE_MEMORY_SIZE)
    (hk : (k.val : Int) < s.tileMemoryValid) (hm : slotMatches (s.tileMemory k) tx ty)
    (hfirst : ∀ j : Fin TILE_MEMORY_SIZE, j.val < k.val → ¬ slotMatches (s.tileMemory j) tx ty) :
    lookup s tx ty = .ok (some (s.tileMemory k).rgba_p) := by
  unfold lookup
  exact lookupLoop_hit s.tileMemory tx ty _ 0 k (Nat.zero_le _) (by omega) hm
    (fun j _ hj => hfirst j hj)

theorem lookup_none_inv (s : MyPaintPythonTiledSurface) (tx ty : Int)
    (h : lookup s tx ty = .ok none) :
    s.tileMemoryValid ≤ TILE_MEMORY_SIZE ∧
    ∀ j : Fin TILE_MEMORY_SIZE, (j.val : Int) < s.tileMemoryValid →
      ¬ slotMatches (s.tileMemory j) tx ty := by
  unfold lookup at h
  obtain ⟨hb, hno⟩ := lookupLoop_none_inv s.tileMemory tx ty _ 0 h
  refine ⟨?_, fun j hj => hno j (Nat.zero_le _) (by omega)⟩
  rcases hb with hb | hb
  · have : s.tileMemoryValid ≤ 0 := Int.toNat_eq_zero.mp hb
    unfold TILE_MEMORY_SIZE; omega
  · omega

theorem lookup_some_inv (s : MyPaintPythonTiledSurface) (tx ty : Int) (p : Ptr)
    (h : lookup s tx ty = .ok (some p)) :
    ∃ k : Fin TILE_MEMORY_SIZE, (k.val : Int) < s.tileMemoryValid ∧
      slotMatches (s.tileMemory k) tx ty ∧ p = (s.tileMemory k).rgba_p ∧
      ∀ j : Fin TILE_MEMORY_SIZE, j.val < k.val → ¬ slotMatches (s.tileMemory j) tx ty := by
  unfold lookup at h
  obtain ⟨k, _, hk2, hk3, hk4, hk5⟩ := lookupLoop_some_inv s.tileMemory tx ty p _ 0 h
  exact ⟨k, by omega, hk3, hk4, fun j hj => hk5 j (Nat.zero_le _) hj⟩

theorem lookup_no_fault (s : MyPaintPythonTiledSurface) (tx ty : Int)
    (h : s.tileMemoryValid ≤ TILE_MEMORY_SIZE) : ∃ r, lookup s tx ty = .ok r := by
  unfold lookup
  exact lookupLoop_no_fault s.tileMemory tx ty _ 0 (by omega)

/-! ## The caching block -/

theorem tileMemorySize_cast : ((TILE_MEMORY_SIZE : Nat) : Int) = 8 := rfl

theorem cacheInsert_ok (s : MyPaintPythonTiledSurface) (tx ty : Int) (p : Ptr)
    (w : Fin TILE_MEMORY_SIZE) (hw : (w.val : Int) = s.tileMemoryWrite) :
    cacheInsert s tx ty p = .ok
      { tileMemory := setSlot s.tileMemory w { tx := tx, ty := ty, rgba_p := p },
        tileMemoryValid := if s.tileMemoryValid < TILE_MEMORY_SIZE then s.tileMemoryValid + 1
                           else s.tileMemoryValid,
        tileMemoryWrite := (s.tileMemoryWrite + 1) % 8,
        atomic := s.atomic } := by
  have h0 : 0 ≤ s.tileMemoryWrite := by rw [← hw]; exact Int.natCast_nonneg _
  have ht : s.tileMemoryWrite.toNat = w.val := by omega
  have h8 : s.tileMemoryWrite.toNat < TILE_MEMORY_SIZE := by rw [ht]; exact w.isLt
  have hwe : (⟨s.tileMemoryWrite.toNat, h8⟩ : Fin TILE_MEMORY_SIZE) = w := Fin.ext ht
  have hmod : Int.tmod (s.tileMemoryWrite + 1) (TILE_MEMORY_SIZE : Nat)
      = (s.tileMemoryWrite + 1) % 8 := by
    rw [tileMemorySize_cast]
    exact Int.tmod_eq_emod (by omega) (by omega)
  unfold cacheInsert
  rw [dif_pos ⟨h0, h8⟩]
  simp only [hwe, hmod]

theorem cacheInsert_inv (s s1 : MyPaintPythonTiledSurface) (tx ty : Int) (p : Ptr)
    (h : cacheInsert s tx ty p = .ok s1) :
    ∃ w : Fin TILE_MEMORY_SIZE, (w.val : Int) = s.tileMemoryWrite ∧
      s1 = { tileMemory := setSlot s.tileMemory w { tx := tx, ty := ty, rgba_p := p },
             tileMemoryValid := if s.tileMemoryValid < TILE_MEMORY_SIZE then s.tileMemoryValid + 1
                                else s.tileMemoryValid,
             tileMemoryWrite := (s.tileMemoryWrite + 1) % 8,
             atomic := s.atomic } := by
  by_cases hb : 0 ≤ s.tileMemoryWrite ∧ s.tileMemoryWrite.toNat < TILE_MEMORY_SIZE
  · have hw : ((⟨s.tileMemoryWrite.toNat, hb.2⟩ : Fin TILE_MEMORY_SIZE).val : Int)
        = s.tileMemoryWrite := by
      show ((s.tileMemoryWrite.toNat : Nat) : Int) = s.tileMemoryWrite
      exact Int.toNat_of_nonneg hb.1
    refine ⟨⟨s.tileMemoryWrite.toNat, hb.2⟩, hw, ?_⟩
    rw [cacheInsert_ok s tx ty p _ hw] at h
    injection h with h
    exact h.symm
  · unfold cacheInsert at h
    rw [dif_neg hb] at h
    cases h

theorem setSlot_same (m : Fin TILE_MEMORY_SIZE → TileMemory) (w : Fin TILE_MEMORY_SIZE)
    (e : TileMemory) : setSlot m w e w = e := by
  unfold setSlot; rw [if_pos rfl]

theorem setSlot_other (m : Fin TILE_MEMORY_SIZE → TileMemory) (w j : Fin TILE_MEMORY_SIZE)
    (e : TileMemory) (h : j ≠ w) : setSlot m w e j = m j := by
  unfold setSlot; rw [if_neg h]

/-! ## Unfolding `tile_request_start` along each path -/

theorem request_hit (s : MyPaintPythonTiledSurface) (request : MyPaintTiledSurfaceTileRequestData)
    (pyErr : Bool) (rgba : Option Ptr) (p : Ptr)
    (h : lookup s request.tx request.ty = .ok (some p)) :
    tile_request_start s request pyErr rgba = .ok { surface := s, buffer := p, calls := [] } := by
  unfold tile_request_start; rw [h]

theorem request_pending (s : MyPaintPythonTiledSurface)
    (request : MyPaintTiledSurfaceTileRequestData) (rgba : Option Ptr)
    (h : lookup s request.tx request.ty = .ok none) :
    tile_request_start s request true rgba
      = .ok { surface := s, buffer := NULL, calls := [] } := by
  unfold tile_request_start; rw [h]; rfl

theorem request_failed (s : MyPaintPythonTiledSurface)
    (request : MyPaintTiledSurfaceTileRequestData)
    (h : lookup s request.tx request.ty = .ok none) :
    tile_request_start s request false none
      = .ok { surface := s, buffer := NULL,
              calls := [PyCall.get_tile_memory request.tx request.ty request.readonly] } := by
  unfold tile_request_start; rw [h]; rfl

theorem request_readonly (s : MyPaintPythonTiledSurface)
    (request : MyPaintTiledSurfaceTileRequestData) (p : Ptr)
    (h : lookup s request.tx request.ty = .ok none) (hro : request.readonly = true) :
    tile_request_start s request false (some p)
      = .ok { surface := s, buffer := p,
              calls := [PyCall.get_tile_memory request.tx request.ty request.readonly] } := by
  unfold tile_request_start; rw [h]; simp [hro]

theorem request_insert (s : MyPaintPythonTiledSurface)
    (request : MyPaintTiledSurfaceTileRequestData) (p : Ptr)
    (h : lookup s request.tx request.ty = .ok none) (hro : request.readonly = false) :
    tile_request_start s request false (some p)
      = (cacheInsert s request.tx request.ty p).map (fun s1 =>
          { surface := s1, buffer := p,
            calls := [PyCall.get_tile_memory request.tx request.ty request.readonly] }) := by
  unfold tile_request_start; rw [h]; simp [hro]
  cases cacheInsert s request.tx request.ty p <;> rfl

/-! ## What one call can do to the surface -/

theorem atomic_increment_inv (s s1 : MyPaintPythonTiledSurface)
    (h : atomic_increment s = .ok s1) :
    s1 = { s with atomic := s.atomic + 1 } ∧ s.atomic < INT_MAX := by
  unfold atomic_increment at h
  by_cases hlt : s.atomic < INT_MAX
  · rw [if_pos hlt] at h
    injection h with h
    exact ⟨h.symm, hlt⟩
  · rw [if_neg hlt] at h; cases h

theorem begin_atomic_inv (s s1 : MyPaintPythonTiledSurface) (h : begin_atomic s = .ok s1) :
    s1 = { s with atomic := s.atomic + 1 } ∧ (s.atomic = 0 → s.tileMemoryValid = 0) := by
  unfold begin_atomic at h
  by_cases ha : s.atomic = 0
  · rw [if_pos ha] at h
    by_cases hv : s.tileMemoryValid = 0
    · rw [if_pos hv] at h
      exact ⟨(atomic_increment_inv s s1 h).1, fun _ => hv⟩
    · rw [if_neg hv] at h; cases h
  · rw [if_neg ha] at h
    exact ⟨(atomic_increment_inv s s1 h).1, fun h0 => absurd h0 ha⟩

theorem begin_atomic_ok (s : MyPaintPythonTiledSurface)
    (hz : s.atomic = 0 → s.tileMemoryValid = 0) (hlt : s.atomic < INT_MAX) :
    begin_atomic s = .ok { s with atomic := s.atomic + 1 } := by
  unfold begin_atomic atomic_increment
  by_cases ha : s.atomic = 0
  · rw [if_pos ha, if_pos (hz ha), if_pos hlt]
  · rw [if_neg ha, if_pos hlt]

theorem end_atomic_inv (s : MyPaintPythonTiledSurface) (bbox : MyPaintRectangle)
    (res : Option Unit) (r : EndResult) (h : end_atomic s bbox res = .ok r) :
    0 < s.atomic ∧ r.ret = bbox ∧
    ((s.atomic = 1 ∧
        r.surface = { s with atomic := 0, tileMemoryValid := 0, tileMemoryWrite := 0 } ∧
        r.calls = (if 0 < bbox.width then
          [PyCall.notify_observers bbox.x bbox.y bbox.width bbox.height] else [])) ∨
     (s.atomic ≠ 1 ∧ r.surface = { s with atomic := s.atomic - 1 } ∧ r.calls = [])) := by
  unfold end_atomic at h
  by_cases ha : 0 < s.atomic
  · rw [if_pos ha] at h
    by_cases h1 : s.atomic = 1
    · by_cases hw : 0 < bbox.width
      · cases res with
        | none => simp [h1, hw] at h
        | some u =>
          simp [h1, hw] at h
          subst h
          exact ⟨ha, rfl, Or.inl ⟨h1, rfl, by simp [hw]⟩⟩
      · simp [h1, hw] at h
        subst h
        exact ⟨ha, rfl, Or.inl ⟨h1, rfl, by simp [hw]⟩⟩
    · have h2 : ¬ (s.atomic - 1 = 0) := by omega
      simp [h2] at h
      subst h
      exact ⟨ha, rfl, Or.inr ⟨h1, rfl, rfl⟩⟩
  · rw [if_neg ha] at h; cases h

theorem end_atomic_returns (s : MyPaintPythonTiledSurface) (bbox : MyPaintRectangle)
    (res : Option Unit) (ha : 0 < s.atomic)
    (hres : s.atomic = 1 → 0 < bbox.width → res ≠ none) :
    ∃ r, end_atomic s bbox res = .ok r := by
  unfold end_atomic
  rw [if_pos ha]
  by_cases h1 : s.atomic = 1
  · by_cases hw : 0 < bbox.width
    · cases res with
      | none => exact absurd rfl (hres h1 hw)
      | some u => simp [h1, hw]
    · simp [h1, hw]
  · have h2 : ¬ (s.atomic - 1 = 0) := by omega
    simp [h2]

theorem end_atomic_null (s : MyPaintPythonTiledSurface) (bbox : MyPaintRectangle)
    (h1 : s.atomic = 1) (hw : 0 < bbox.width) :
    end_atomic s bbox none
      = .error (Fault.nullDeref
          [PyCall.notify_observers bbox.x bbox.y bbox.width bbox.height]) := by
  unfold end_atomic
  simp [h1, hw]

theorem end_atomic_error_inv (s : MyPaintPythonTiledSurface) (bbox : MyPaintRectangle)
    (res : Option Unit) (e : Fault) (h : end_atomic s bbox res = .error e) :
    (e = Fault.assertion ∧ s.atomic ≤ 0) ∨
    (e = Fault.nullDeref [PyCall.notify_observers bbox.x bbox.y bbox.width bbox.height] ∧
      s.atomic = 1 ∧ 0 < bbox.width ∧ res = none) := by
  by_cases ha : 0 < s.atomic
  · by_cases hn : s.atomic = 1 ∧ 0 < bbox.width ∧ res = none
    · obtain ⟨h1, hw, hr⟩ := hn
      rw [hr, end_atomic_null s bbox h1 hw] at h
      injection h with h
      exact Or.inr ⟨h.symm, h1, hw, hr⟩
    · obtain ⟨r, hr⟩ := end_atomic_returns s bbox res ha
        (fun h1 hw hr => hn ⟨h1, hw, hr⟩)
      rw [hr] at h; cases h
  · unfold end_atomic at h
    rw [if_neg ha] at h
    injection h with h
    exact Or.inl ⟨h.symm, by omega⟩

theorem tile_request_inv (s : MyPaintPythonTiledSurface)
    (request : MyPaintTiledSurfaceTileRequestData) (pyErr : Bool) (rgba : Option Ptr)
    (r : RequestResult) (h : tile_request_start s request pyErr rgba = .ok r) :
    (r.surface = s ∧
      ((∃ p, lookup s request.tx request.ty = .ok (some p) ∧ r.buffer = p ∧ r.calls = []) ∨
       (lookup s request.tx request.ty = .ok none ∧ pyErr = true ∧ r.buffer = NULL ∧
          r.calls = []) ∨
       (lookup s request.tx request.ty = .ok none ∧ pyErr = false ∧ rgba = none ∧
          r.buffer = NULL ∧
          r.calls = [PyCall.get_tile_memory request.tx request.ty request.readonly]) ∨
       (lookup s request.tx request.ty = .ok none ∧ pyErr = false ∧ rgba = some r.buffer ∧
          request.readonly = true ∧
          r.calls = [PyCall.get_tile_memory request.tx request.ty request.readonly]))) ∨
    (lookup s request.tx request.ty = .ok none ∧ pyErr = false ∧ rgba = some r.buffer ∧
      request.readonly = false ∧
      cacheInsert s request.tx request.ty r.buffer = .ok r.surface ∧
      r.calls = [PyCall.get_tile_memory request.tx request.ty request.readonly]) := by
  cases hl : lookup s request.tx request.ty with
  | error e =>
    unfold tile_request_start at h
    rw [hl] at h
    cases h
  | ok o =>
    cases o with
    | some p =>
      rw [request_hit s request pyErr rgba p hl] at h
      injection h with h
      subst h
      exact Or.inl ⟨rfl, Or.inl ⟨p, rfl, rfl, rfl⟩⟩
    | none =>
      cases pyErr with
      | true =>
        rw [request_pending s request rgba hl] at h
        injection h with h
        subst h
        exact Or.inl ⟨rfl, Or.inr (Or.inl ⟨rfl, rfl, rfl, rfl⟩)⟩
      | false =>
        cases rgba with
        | none =>
          rw [request_failed s request hl] at h
          injection h with h
          subst h
          exact Or.inl ⟨rfl, Or.inr (Or.inr (Or.inl ⟨rfl, rfl, rfl, rfl, rfl⟩))⟩
        | some p =>
          cases hro : request.readonly with
          | true =>
            rw [request_readonly s request p hl hro] at h
            injection h with h
            subst h
            exact Or.inl ⟨rfl, Or.inr (Or.inr (Or.inr ⟨rfl, rfl, rfl, rfl, by rw [hro]⟩))⟩
          | false =>
            rw [request_insert s request p hl hro] at h
            cases hc : cacheInsert s request.tx request.ty p with
            | error e => rw [hc] at h; cases h
            | ok s1 =>
              rw [hc] at h
              have hr : r = RequestResult.mk s1 p
                  [PyCall.get_tile_memory request.tx request.ty request.readonly] := by
                injection h with h; exact h.symm
              subst hr
              exact Or.inr ⟨rfl, rfl, rfl, rfl, hc, by rw [hro]⟩

/-! ## Invariants of call sequences -/

theorem run_invariant (P : MyPaintPythonTiledSurface → Prop) (Q : Op → Prop)
    (hstep : ∀ s op s1 cs, Q op → P s → step s op = .ok (s1, cs) → P s1) :
    ∀ (ops : List Op) (s s1 : MyPaintPythonTiledSurface) (tr : List (List PyCall)),
      (∀ op ∈ ops, Q op) → P s → run s ops = .ok (s1, tr) → P s1 := by
  intro ops
  induction ops with
  | nil =>
    intro s s1 tr _ hP h
    unfold run at h
    injection h with h
    injection h with h _
    rw [← h]; exact hP
  | cons op ops ih =>
    intro s s1 tr hQ hP h
    unfold run at h
    cases hs : step s op with
    | error e => rw [hs] at h; cases h
    | ok x =>
      obtain ⟨s2, cs⟩ := x
      rw [hs] at h
      simp only at h
      cases hr : run s2 ops with
      | error e => rw [hr] at h; cases h
      | ok y =>
        obtain ⟨s3, tr3⟩ := y
        rw [hr] at h
        simp only at h
        injection h with h
        injection h with h _
        rw [← h]
        exact ih s2 s3 tr3 (fun o ho => hQ o (List.mem_cons_of_mem _ ho))
          (hstep s op s2 cs (hQ op (List.mem_cons_self _ _)) hP hs) hr

theorem cacheInsert_cacheInv (s s1 : MyPaintPythonTiledSurface) (tx ty : Int) (p : Ptr)
    (hI : CacheInv s) (h : cacheInsert s tx ty p = .ok s1) : CacheInv s1 := by
  obtain ⟨w, _, hs1⟩ := cacheInsert_inv s s1 tx ty p h
  subst hs1
  obtain ⟨h1, h2, h3, h4, h5⟩ := hI
  unfold CacheInv
  simp only [tileMemorySize_cast] at h2 h4 h5 ⊢
  by_cases hv : s.tileMemoryValid < 8
  · rw [if_pos hv]
    have := h5 hv
    omega
  · rw [if_neg hv]
    omega

theorem step_cacheInv (s : MyPaintPythonTiledSurface) (op : Op) (s1 : MyPaintPythonTiledSurface)
    (cs : List PyCall) (hI : CacheInv s) (h : step s op = .ok (s1, cs)) : CacheInv s1 := by
  cases op with
  | begin_atomic =>
    simp only [step] at h
    cases hb : begin_atomic s with
    | error e => rw [hb] at h; cases h
    | ok s2 =>
      rw [hb] at h
      injection h with h
      injection h with h _
      subst h
      rw [(begin_atomic_inv s s2 hb).1]
      exact hI
  | end_atomic bbox res =>
    simp only [step] at h
    cases he : end_atomic s bbox res with
    | error e => rw [he] at h; cases h
    | ok r =>
      rw [he] at h
      injection h with h
      injection h with h _
      subst h
      obtain ⟨_, _, hc | hc⟩ := end_atomic_inv s bbox res r he
      · rw [hc.2.1]
        unfold CacheInv
        simp [tileMemorySize_cast]
      · rw [hc.2.1]
        exact hI
  | tile_request_start request pyErr rgba =>
    simp only [step] at h
    cases ht : tile_request_start s request pyErr rgba with
    | error e => rw [ht] at h; cases h
    | ok r =>
      rw [ht] at h
      injection h with h
      injection h with h _
      subst h
      rcases tile_request_inv s request pyErr rgba r ht with hc | hc
      · rw [hc.1]; exact hI
      · exact cacheInsert_cacheInv s r.surface _ _ _ hI hc.2.2.2.2.1

theorem new_cacheInv (garbage : Fin TILE_MEMORY_SIZE → TileMemory) :
    CacheInv (mypaint_python_tiled_surface_new garbage) := by
  unfold CacheInv mypaint_python_tiled_surface_new
  simp [tileMemorySize_cast]

theorem run_cacheInv (garbage : Fin TILE_MEMORY_SIZE → TileMemory) (ops : List Op)
    (s : MyPaintPythonTiledSurface) (tr : List (List PyCall))
    (h : run (mypaint_python_tiled_surface_new garbage) ops = .ok (s, tr)) : CacheInv s :=
  run_invariant CacheInv (fun _ => True)
    (fun s op s1 cs _ hI hs => step_cacheInv s op s1 cs hI hs)
    ops _ s tr (fun _ _ => trivial) (new_cacheInv garbage) h

theorem tile_request_no_fault (s : MyPaintPythonTiledSurface) (hI : CacheInv s)
    (request : MyPaintTiledSurfaceTileRequestData) (pyErr : Bool) (rgba : Option Ptr) :
    ∃ r, tile_request_start s request pyErr rgba = .ok r := by
  obtain ⟨h1, h2, h3, h4, h5⟩ := hI
  obtain ⟨o, ho⟩ := lookup_no_fault s request.tx request.ty h2
  cases o with
  | some p => exact ⟨_, request_hit s request pyErr rgba p ho⟩
  | none =>
    cases pyErr with
    | true => exact ⟨_, request_pending s request rgba ho⟩
    | false =>
      cases rgba with
      | none => exact ⟨_, request_failed s request ho⟩
      | some p =>
        cases hro : request.readonly with
        | true => exact ⟨_, request_readonly s request p ho hro⟩
        | false =>
          rw [tileMemorySize_cast] at h4
          have hlt : s.tileMemoryWrite.toNat < TILE_MEMORY_SIZE := by
            unfold TILE_MEMORY_SIZE; omega
          have hw : ((⟨s.tileMemoryWrite.toNat, hlt⟩ : Fin TILE_MEMORY_SIZE).val : Int)
              = s.tileMemoryWrite := by
            show ((s.tileMemoryWrite.toNat : Nat) : Int) = s.tileMemoryWrite
            exact Int.toNat_of_nonneg h3
          rw [request_insert s request p ho hro, cacheInsert_ok s request.tx request.ty p _ hw]
          exact ⟨_, rfl⟩

theorem cacheInsert_storeInv (f : Int → Int → Ptr) (s s1 : MyPaintPythonTiledSurface)
    (tx ty : Int) (hI : CacheInv s) (hS : StoreInv f s)
    (h : cacheInsert s tx ty (f tx ty) = .ok s1) : StoreInv f s1 := by
  obtain ⟨w, hw, hs1⟩ := cacheInsert_inv s s1 tx ty (f tx ty) h
  subst hs1
  obtain ⟨h1, h2, h3, h4, h5⟩ := hI
  simp only [tileMemorySize_cast] at h2 h4 h5
  intro i hi
  simp only [tileMemorySize_cast] at hi
  show (setSlot s.tileMemory w _ i).rgba_p
    = f (setSlot s.tileMemory w _ i).tx (setSlot s.tileMemory w _ i).ty
  by_cases hiw : i = w
  · rw [hiw, setSlot_same]
  · rw [setSlot_other _ _ _ _ hiw]
    apply hS i
    have hne : (i.val : Int) ≠ (w.val : Int) := fun he => hiw (Fin.ext (by exact_mod_cast he))
    by_cases hv : s.tileMemoryValid < 8
    · rw [if_pos hv] at hi
      have := h5 hv
      omega
    · rw [if_neg hv] at hi
      exact hi

theorem step_storeInv (f : Int → Int → Ptr) (s : MyPaintPythonTiledSurface) (op : Op)
    (s1 : MyPaintPythonTiledSurface) (cs : List PyCall) (hQ : AnsweredBy f op)
    (hP : CacheInv s ∧ StoreInv f s) (h : step s op = .ok (s1, cs)) :
    CacheInv s1 ∧ StoreInv f s1 := by
  refine ⟨step_cacheInv s op s1 cs hP.1 h, ?_⟩
  cases op with
  | begin_atomic =>
    simp only [step] at h
    cases hb : begin_atomic s with
    | error e => rw [hb] at h; cases h
    | ok s2 =>
      rw [hb] at h
      injection h with h
      injection h with h _
      subst h
      rw [(begin_atomic_inv s s2 hb).1]
      exact hP.2
  | end_atomic bbox res =>
    simp only [step] at h
    cases he : end_atomic s bbox res with
    | error e => rw [he] at h; cases h
    | ok r =>
      rw [he] at h
      injection h with h
      injection h with h _
      subst h
      obtain ⟨_, _, hc | hc⟩ := end_atomic_inv s bbox res r he
      · rw [hc.2.1]
        intro i hi
        have : (i.val : Int) < 0 := hi
        omega
      · rw [hc.2.1]
        exact hP.2
  | tile_request_start request pyErr rgba =>
    simp only [step] at h
    cases ht : tile_request_start s request pyErr rgba with
    | error e => rw [ht] at h; cases h
    | ok r =>
      rw [ht] at h
      injection h with h
      injection h with h _
      subst h
      rcases tile_request_inv s request pyErr rgba r ht with hc | hc
      · rw [hc.1]; exact hP.2
      · obtain ⟨_, _, hb, _, hins, _⟩ := hc
        have hq : rgba = some (f request.tx request.ty) := hQ.2
        rw [hq] at hb
        injection hb with hb
        rw [← hb] at hins
        exact cacheInsert_storeInv f s r.surface _ _ hP.1 hP.2 hins

theorem run_storeInv (f : Int → Int → Ptr) (garbage : Fin TILE_MEMORY_SIZE → TileMemory)
    (ops : List Op) (s : MyPaintPythonTiledSurface) (tr : List (List PyCall))
    (hQ : ∀ op ∈ ops, AnsweredBy f op)
    (h : run (mypaint_python_tiled_surface_new garbage) ops = .ok (s, tr)) :
    CacheInv s ∧ StoreInv f s :=
  run_invariant (fun s => CacheInv s ∧ StoreInv f s) (AnsweredBy f)
    (fun s op s1 cs hq hP hs => step_storeInv f s op s1 cs hq hP hs)
    ops _ s tr hQ
    ⟨new_cacheInv garbage, fun i hi => by
      have : (i.val : Int) < 0 := hi
      omega⟩ h

theorem exists_first_slot (P : Fin TILE_MEMORY_SIZE → Prop) (h : ∃ k, P k) :
    ∃ k, P k ∧ ∀ j : Fin TILE_MEMORY_SIZE, j.val < k.val → ¬ P j := by
  classical
  have hex : ∃ n : Nat, ∃ hn : n < TILE_MEMORY_SIZE, P ⟨n, hn⟩ := by
    obtain ⟨k, hk⟩ := h
    exact ⟨k.val, k.isLt, hk⟩
  obtain ⟨hn, hP⟩ := Nat.find_spec hex
  refine ⟨⟨Nat.find hex, hn⟩, hP, ?_⟩
  intro j hj hPj
  exact Nat.find_min hex hj ⟨j.isLt, hPj⟩

theorem lookup_after_insert (s s1 : MyPaintPythonTiledSurface) (tx ty : Int) (p : Ptr)
    (hI : CacheInv s) (hmiss : lookup s tx ty = .ok none)
    (h : cacheInsert s tx ty p = .ok s1) : lookup s1 tx ty = .ok (some p) := by
  obtain ⟨w, hw, hs1⟩ := cacheInsert_inv s s1 tx ty p h
  obtain ⟨h1, h2, h3, h4, h5⟩ := hI
  simp only [tileMemorySize_cast] at h2 h4 h5
  obtain ⟨_, hno⟩ := lookup_none_inv s tx ty hmiss
  have hwlt : (w.val : Int) < s1.tileMemoryValid := by
    rw [hs1]
    show (w.val : Int) < (if s.tileMemoryValid < (TILE_MEMORY_SIZE : Nat)
      then s.tileMemoryValid + 1 else s.tileMemoryValid)
    rw [tileMemorySize_cast]
    by_cases hv : s.tileMemoryValid < 8
    · rw [if_pos hv]
      have := h5 hv
      omega
    · rw [if_neg hv]
      omega
  have hslot : s1.tileMemory w = { tx := tx, ty := ty, rgba_p := p } := by
    rw [hs1]; exact setSlot_same _ _ _
  have hm : slotMatches (s1.tileMemory w) tx ty := by
    rw [hslot]; exact ⟨rfl, rfl⟩
  have hfirst : ∀ j : Fin TILE_MEMORY_SIZE, j.val < w.val →
      ¬ slotMatches (s1.tileMemory j) tx ty := by
    intro j hj
    have hjw : j ≠ w := fun he => by rw [he] at hj; exact lt_irrefl _ hj
    have hsj : s1.tileMemory j = s.tileMemory j := by
      rw [hs1]; exact setSlot_other _ _ _ _ hjw
    rw [hsj]
    apply hno j
    by_cases hv : s.tileMemoryValid < 8
    · have := h5 hv
      omega
    · have := j.isLt
      unfold TILE_MEMORY_SIZE at this
      omega
  have := lookup_hit s1 tx ty w hwlt hm hfirst
  rw [hslot] at this
  exact this

/-! ## Frame and postcondition of single calls -/

/-- C5. A read-only tile request never modifies the cache: whenever
`tile_request_start` returns for a request with `readonly = true` (hit, miss
with a store answer, miss with a store failure or a pending host error), the
surface afterwards (`tileMemoryValid`, `tileMemoryWrite`, every slot, `atomic`)
is the surface before; and it does return whenever `tileMemoryValid` is at most
the capacity. -/
theorem readonly_request_frame (self : MyPaintPythonTiledSurface)
    (request : MyPaintTiledSurfaceTileRequestData) (pyErr : Bool) (rgba : Option Ptr)
    (hro : request.readonly = true) :
    (self.tileMemoryValid ≤ TILE_MEMORY_SIZE →
      ∃ r, tile_request_start self request pyErr rgba = .ok r) ∧
    (∀ r, tile_request_start self request pyErr rgba = .ok r → r.surface = self) := by
  have key : ∀ o, lookup self request.tx request.ty = .ok o →
      ∃ r, tile_request_start self request pyErr rgba = .ok r ∧ r.surface = self := by
    intro o ho
    cases o with
    | some p => exact ⟨_, request_hit self request pyErr rgba p ho, rfl⟩
    | none =>
      cases pyErr with
      | true => exact ⟨_, request_pending self request rgba ho, rfl⟩
      | false =>
        cases rgba with
        | none => exact ⟨_, request_failed self request ho, rfl⟩
        | some p => exact ⟨_, request_readonly self request p ho hro, rfl⟩
  constructor
  · intro hv
    obtain ⟨o, ho⟩ := lookup_no_fault self request.tx request.ty hv
    obtain ⟨r, hr, _⟩ := key o ho
    exact ⟨r, hr⟩
  · intro r hr
    cases hl : lookup self request.tx request.ty with
    | error e =>
      unfold tile_request_start at hr
      rw [hl] at hr
      cases hr
    | ok o =>
      obtain ⟨r1, hr1, hs⟩ := key o hl
      rw [hr1] at hr
      injection hr with hr
      rw [← hr]; exact hs

/-- C6. Insert postcondition: for a non-readonly request for `(tx, ty)` that
misses the cache and whose store resolution succeeds with location `p`,
whenever `tile_request_start` returns, the slot at the old `tileMemoryWrite`
holds `(tx, ty, p)`, every other slot is unchanged, `tileMemoryWrite` became
`(tileMemoryWrite + 1) mod 8`, `tileMemoryValid` became
`min (tileMemoryValid + 1) 8`, `atomic` is unchanged, `request->buffer = p` and
the store was asked once; and it does return whenever `tileMemoryWrite` indexes
inside the array. -/
theorem insert_postcondition (self : MyPaintPythonTiledSurface)
    (request : MyPaintTiledSurfaceTileRequestData) (p : Ptr)
    (hro : request.readonly = false)
    (hmiss : lookup self request.tx request.ty = .ok none) :
    (0 ≤ self.tileMemoryWrite ∧ self.tileMemoryWrite < 8 →
      ∃ r, tile_request_start self request false (some p) = .ok r) ∧
    (∀ r, tile_request_start self request false (some p) = .ok r →
      ∃ w : Fin TILE_MEMORY_SIZE, (w.val : Int) = self.tileMemoryWrite ∧
        r.surface.tileMemory w = { tx := request.tx, ty := request.ty, rgba_p := p } ∧
        (∀ j : Fin TILE_MEMORY_SIZE, j ≠ w → r.surface.tileMemory j = self.tileMemory j) ∧
        r.surface.tileMemoryWrite = (self.tileMemoryWrite + 1) % 8 ∧
        r.surface.tileMemoryValid = min (self.tileMemoryValid + 1) 8 ∧
        r.surface.atomic = self.atomic ∧
        r.buffer = p ∧
        r.calls = [PyCall.get_tile_memory request.tx request.ty false]) := by
  have hpath := request_insert self request p hmiss hro
  have hv8 : self.tileMemoryValid ≤ 8 := (lookup_none_inv self _ _ hmiss).1
  constructor
  · intro hb
    have hlt : self.tileMemoryWrite.toNat < TILE_MEMORY_SIZE := by
      unfold TILE_MEMORY_SIZE; omega
    have hw : ((⟨self.tileMemoryWrite.toNat, hlt⟩ : Fin TILE_MEMORY_SIZE).val : Int)
        = self.tileMemoryWrite := by
      show ((self.tileMemoryWrite.toNat : Nat) : Int) = self.tileMemoryWrite
      exact Int.toNat_of_nonneg hb.1
    rw [hpath, cacheInsert_ok self request.tx request.ty p _ hw]
    exact ⟨_, rfl⟩
  · intro r hr
    rw [hpath] at hr
    cases hc : cacheInsert self request.tx request.ty p with
    | error e => rw [hc] at hr; cases hr
    | ok s1 =>
      rw [hc] at hr
      obtain ⟨w, hw, hs1⟩ := cacheInsert_inv self s1 request.tx request.ty p hc
      have hr2 : r = RequestResult.mk s1 p
          [PyCall.get_tile_memory request.tx request.ty request.readonly] := by
        injection hr with hr; exact hr.symm
      subst hr2
      subst hs1
      refine ⟨w, hw, setSlot_same _ _ _, fun j hj => setSlot_other _ _ _ _ hj, rfl, ?_, rfl, rfl,
        by rw [hro]⟩
      show (if self.tileMemoryValid < (TILE_MEMORY_SIZE : Nat) then self.tileMemoryValid + 1
            else self.tileMemoryValid) = min (self.tileMemoryValid + 1) 8
      rw [tileMemorySize_cast]
      split <;> omega

/-- C8. Nested end: with `atomic >= 2`, for every rectangle returned by the base
primitive (also one of positive width) and whatever the host would answer,
`end_atomic` returns having only
decremented `atomic`: `tileMemoryValid`, `tileMemoryWrite` and all slots are
unchanged and no host call is made. -/
theorem end_atomic_nested (self : MyPaintPythonTiledSurface) (bbox : MyPaintRectangle)
    (res : Option Unit) (h : 2 ≤ self.atomic) :
    ∃ r, end_atomic self bbox res = .ok r ∧
      r.surface.atomic = self.atomic - 1 ∧
      r.surface.tileMemoryValid = self.tileMemoryValid ∧
      r.surface.tileMemoryWrite = self.tileMemoryWrite ∧
      r.surface.tileMemory = self.tileMemory ∧
      r.calls = [] := by
  have h1 : 0 < self.atomic := by omega
  have h2 : ¬ (self.atomic - 1 = 0) := by omega
  unfold end_atomic
  refine ⟨_, by simp [h1, h2]; rfl, rfl, rfl, rfl, rfl, rfl⟩

/-- C4. Cache hit short-circuit.  (a) In every state in which some slot with
index below `tileMemoryValid` holds `(tx, ty)`, `tile_request_start` for
`(tx, ty)`, with either readonly flag and whatever the host would answer, sets
`request->buffer` to the location in the first such slot, makes no host call and
leaves the surface (`tileMemory`, `tileMemoryValid`, `tileMemoryWrite`,
`atomic`) unchanged.  (b) In a state reached from a newly created surface,
right after a non-readonly request for `(tx, ty)` that succeeded (answered by
the cache, or by the store with no host error pending), a second request for
`(tx, ty)` returns the same location, makes no host call and leaves the surface
unchanged. -/
theorem cache_hit_short_circuit :
    (∀ (self : MyPaintPythonTiledSurface) (request : MyPaintTiledSurfaceTileRequestData)
        (pyErr : Bool) (rgba : Option Ptr),
      (∃ k : Fin TILE_MEMORY_SIZE, (k.val : Int) < self.tileMemoryValid ∧
        slotMatches (self.tileMemory k) request.tx request.ty) →
      ∃ k : Fin TILE_MEMORY_SIZE, (k.val : Int) < self.tileMemoryValid ∧
        slotMatches (self.tileMemory k) request.tx request.ty ∧
        (∀ j : Fin TILE_MEMORY_SIZE, j.val < k.val →
          ¬ slotMatches (self.tileMemory j) request.tx request.ty) ∧
        tile_request_start self request pyErr rgba
          = .ok { surface := self, buffer := (self.tileMemory k).rgba_p, calls := [] }) ∧
    (∀ (garbage : Fin TILE_MEMORY_SIZE → TileMemory) (ops : List Op)
        (s : MyPaintPythonTiledSurface) (tr : List (List PyCall)),
      run (mypaint_python_tiled_surface_new garbage) ops = .ok (s, tr) →
      ∀ (tx ty : Int) (pyErr : Bool) (rgba : Option Ptr) (r1 : RequestResult),
        tile_request_start s { tx := tx, ty := ty, readonly := false } pyErr rgba = .ok r1 →
        ((∃ b, lookup s tx ty = .ok (some b)) ∨ (pyErr = false ∧ ∃ p, rgba = some p)) →
        ∀ (readonly2 pyErr2 : Bool) (rgba2 : Option Ptr),
          tile_request_start r1.surface { tx := tx, ty := ty, readonly := readonly2 } pyErr2 rgba2
            = .ok { surface := r1.surface, buffer := r1.buffer, calls := [] }) := by
  constructor
  · intro self request pyErr rgba hex
    obtain ⟨k, ⟨hk, hm⟩, hmin⟩ := exists_first_slot
      (fun k => (k.val : Int) < self.tileMemoryValid ∧
        slotMatches (self.tileMemory k) request.tx request.ty) hex
    have hfirst : ∀ j : Fin TILE_MEMORY_SIZE, j.val < k.val →
        ¬ slotMatches (self.tileMemory j) request.tx request.ty := by
      intro j hj hmj
      exact hmin j hj ⟨by omega, hmj⟩
    exact ⟨k, hk, hm, hfirst,
      request_hit self request pyErr rgba _ (lookup_hit self _ _ k hk hm hfirst)⟩
  · intro garbage ops s tr hrun tx ty pyErr rgba r1 hr1 hsucc readonly2 pyErr2 rgba2
    have hI := run_cacheInv garbage ops s tr hrun
    rcases tile_request_inv s _ pyErr rgba r1 hr1 with hc | hc
    · rcases hc.2 with ⟨p, hl, hbuf, _⟩ | ⟨hl, hp, _⟩ | ⟨hl, hp, hn, _⟩ | ⟨_, _, _, hro, _⟩
      · rw [hc.1, hbuf]
        exact request_hit s _ pyErr2 rgba2 p hl
      · rcases hsucc with ⟨b, hb⟩ | ⟨hp2, _⟩
        · rw [hb] at hl; cases hl
        · rw [hp2] at hp; cases hp
      · rcases hsucc with ⟨b, hb⟩ | ⟨_, q, hq⟩
        · rw [hb] at hl; cases hl
        · rw [hq] at hn; cases hn
      · cases hro
    · obtain ⟨hl, _, _, _, hins, _⟩ := hc
      exact request_hit r1.surface _ pyErr2 rgba2 r1.buffer
        (lookup_after_insert s r1.surface tx ty r1.buffer hI hl hins)

/-! ## Nesting -/

theorem step_begin_inv (s s1 : MyPaintPythonTiledSurface) (cs : List PyCall)
    (h : step s Op.begin_atomic = .ok (s1, cs)) :
    s1 = { s with atomic := s.atomic + 1 } ∧ cs = [] := by
  simp only [step] at h
  cases hb : begin_atomic s with
  | error e => rw [hb] at h; cases h
  | ok s2 =>
    rw [hb] at h
    injection h with h
    injection h with h1 h2
    subst h1
    exact ⟨(begin_atomic_inv s s2 hb).1, h2.symm⟩

theorem step_end_inv (s s1 : MyPaintPythonTiledSurface) (bbox : MyPaintRectangle)
    (res : Option Unit) (cs : List PyCall) (h : step s (Op.end_atomic bbox res) = .ok (s1, cs)) :
    0 < s.atomic ∧ s1.atomic = s.atomic - 1 ∧
    cs = (if s.atomic = 1 ∧ 0 < bbox.width then
      [PyCall.notify_observers bbox.x bbox.y bbox.width bbox.height] else []) := by
  simp only [step] at h
  cases he : end_atomic s bbox res with
  | error e => rw [he] at h; cases h
  | ok r =>
    rw [he] at h
    injection h with h
    injection h with h1 h2
    subst h1
    subst h2
    obtain ⟨hpos, _, hc | hc⟩ := end_atomic_inv s bbox res r he
    · obtain ⟨h1, hs, hcalls⟩ := hc
      refine ⟨hpos, by rw [hs, h1]; rfl, ?_⟩
      rw [hcalls]
      by_cases hw : 0 < bbox.width
      · rw [if_pos hw, if_pos ⟨h1, hw⟩]
      · rw [if_neg hw, if_neg (fun hh => hw hh.2)]
    · obtain ⟨h1, hs, hcalls⟩ := hc
      refine ⟨hpos, by rw [hs], ?_⟩
      rw [hcalls, if_neg (fun hh => h1 hh.1)]

theorem step_request_inv (s s1 : MyPaintPythonTiledSurface)
    (request : MyPaintTiledSurfaceTileRequestData) (pyErr : Bool) (rgba : Option Ptr)
    (cs : List PyCall) (h : step s (Op.tile_request_start request pyErr rgba) = .ok (s1, cs)) :
    s1.atomic = s.atomic ∧ notifications cs = [] := by
  simp only [step] at h
  cases ht : tile_request_start s request pyErr rgba with
  | error e => rw [ht] at h; cases h
  | ok r =>
    rw [ht] at h
    injection h with h
    injection h with h1 h2
    subst h1
    subst h2
    rcases tile_request_inv s request pyErr rgba r ht with hc | hc
    · refine ⟨by rw [hc.1], ?_⟩
      rcases hc.2 with ⟨_, _, _, hcs⟩ | ⟨_, _, _, hcs⟩ | ⟨_, _, _, _, hcs⟩ | ⟨_, _, _, _, hcs⟩ <;>
        rw [hcs] <;> rfl
    · obtain ⟨_, _, _, _, hins, hcs⟩ := hc
      obtain ⟨w, _, hs1⟩ := cacheInsert_inv s r.surface _ _ _ hins
      refine ⟨by rw [hs1], ?_⟩
      rw [hcs]; rfl

theorem run_cons_ok (s s1 s2 : MyPaintPythonTiledSurface) (op : Op) (ops : List Op)
    (cs : List PyCall) (tr : List (List PyCall))
    (h1 : step s op = .ok (s1, cs)) (h2 : run s1 ops = .ok (s2, tr)) :
    run s (op :: ops) = .ok (s2, cs :: tr) := by
  unfold run
  rw [h1]
  simp only
  rw [h2]

theorem run_cons_inv (s s2 : MyPaintPythonTiledSurface) (op : Op) (ops : List Op)
    (tr : List (List PyCall)) (h : run s (op :: ops) = .ok (s2, tr)) :
    ∃ s1 cs tr1, step s op = .ok (s1, cs) ∧ run s1 ops = .ok (s2, tr1) ∧ tr = cs :: tr1 := by
  unfold run at h
  cases hs : step s op with
  | error e => rw [hs] at h; cases h
  | ok x =>
    obtain ⟨s1, cs⟩ := x
    rw [hs] at h
    simp only at h
    cases hr : run s1 ops with
    | error e => rw [hr] at h; cases h
    | ok y =>
      obtain ⟨s3, tr3⟩ := y
      rw [hr] at h
      simp only at h
      injection h with h
      injection h with h1 h2
      subst h1
      exact ⟨s1, cs, tr3, rfl, hr, h2.symm⟩

theorem run_notifications :
    ∀ (ops : List Op) (d : Nat) (s s1 : MyPaintPythonTiledSurface) (tr : List (List PyCall)),
      s.atomic = (d : Int) → matched d ops = true → run s ops = .ok (s1, tr) →
      tr.map notifications = expectedNotifications d ops := by
  intro ops
  induction ops with
  | nil =>
    intro d s s1 tr _ _ h
    unfold run at h
    injection h with h
    injection h with _ h2
    rw [← h2]; rfl
  | cons op ops ih =>
    intro d s s1 tr hd hm h
    obtain ⟨s2, cs, tr1, hstep, hrun, htr⟩ := run_cons_inv s s1 op ops tr h
    subst htr
    cases op with
    | begin_atomic =>
      obtain ⟨hs2, hcs⟩ := step_begin_inv s s2 cs hstep
      have hd2 : s2.atomic = ((d + 1 : Nat) : Int) := by
        rw [hs2]; show s.atomic + 1 = _; rw [hd]; push_cast; rfl
      have hm2 : matched (d + 1) ops = true := hm
      rw [List.map_cons, ih (d + 1) s2 s1 tr1 hd2 hm2 hrun, hcs]
      rfl
    | end_atomic bbox res =>
      obtain ⟨hpos, hs2, hcs⟩ := step_end_inv s s2 bbox res cs hstep
      have hm' : (decide (0 < d) && matched (d - 1) ops) = true := hm
      rw [Bool.and_eq_true, decide_eq_true_eq] at hm'
      have hd2 : s2.atomic = ((d - 1 : Nat) : Int) := by
        rw [hs2, hd]; omega
      have hcond : (s.atomic = 1 ∧ 0 < bbox.width) ↔ (d = 1 ∧ 0 < bbox.width) := by
        rw [hd]; constructor
        · rintro ⟨a, b⟩; exact ⟨by exact_mod_cast a, b⟩
        · rintro ⟨a, b⟩; exact ⟨by exact_mod_cast a, b⟩
      rw [List.map_cons, ih (d - 1) s2 s1 tr1 hd2 hm'.2 hrun, hcs]
      show _ = (if d = 1 ∧ 0 < bbox.width then _ else _) :: _
      by_cases hc : d = 1 ∧ 0 < bbox.width
      · rw [if_pos hc, if_pos (hcond.mpr hc)]; rfl
      · rw [if_neg hc, if_neg (fun hh => hc (hcond.mp hh))]; rfl
    | tile_request_start request pyErr rgba =>
      obtain ⟨hs2, hcs⟩ := step_request_inv s s2 request pyErr rgba cs hstep
      have hm2 : matched d ops = true := hm
      rw [List.map_cons, ih d s2 s1 tr1 (by rw [hs2, hd]) hm2 hrun, hcs]
      rfl

/-! ## Properties of call sequences -/

/-- C1. Cache transparency: let the store be a total function `f` (every
`get_tile_memory` of the sequence answers `f tx ty`, whatever the readonly flag,
and no host error is pending).  After every sequence of `begin_atomic`,
`end_atomic` and `tile_request_start` calls from a newly created surface, a tile
request for `(tx, ty)` returns with `request->buffer = f tx ty`, which is what
the dispatch without a cache returns. -/
theorem cache_transparency (f : Int → Int → Ptr)
    (garbage : Fin TILE_MEMORY_SIZE → TileMemory) (ops : List Op)
    (s : MyPaintPythonTiledSurface) (tr : List (List PyCall))
    (hstore : ∀ op ∈ ops, AnsweredBy f op)
    (hrun : run (mypaint_python_tiled_surface_new garbage) ops = .ok (s, tr))
    (request : MyPaintTiledSurfaceTileRequestData) :
    ∃ r, tile_request_start s request false (some (f request.tx request.ty)) = .ok r ∧
      r.buffer = f request.tx request.ty ∧
      r.buffer = (uncached_dispatch request false (some (f request.tx request.ty))).1 := by
  obtain ⟨hI, hS⟩ := run_storeInv f garbage ops s tr hstore hrun
  obtain ⟨r, hr⟩ := tile_request_no_fault s hI request false (some (f request.tx request.ty))
  have hb : r.buffer = f request.tx request.ty := by
    rcases tile_request_inv s request false _ r hr with hc | hc
    · rcases hc.2 with ⟨p, hl, hbuf, _⟩ | ⟨_, hp, _⟩ | ⟨_, _, hn, _⟩ | ⟨_, _, hsome, _⟩
      · obtain ⟨k, hk, hm, hp, _⟩ := lookup_some_inv s _ _ p hl
        rw [hbuf, hp, hS k hk, hm.1, hm.2]
      · cases hp
      · cases hn
      · injection hsome with hsome
        exact hsome.symm
    · obtain ⟨_, _, hsome, _⟩ := hc
      injection hsome with hsome
      exact hsome.symm
  exact ⟨r, hr, hb, hb⟩

/-- C2. Capacity bound: in every state reached from
`mypaint_python_tiled_surface_new` by any sequence of `begin_atomic`,
`end_atomic` and `tile_request_start` calls, whatever the store answers,
`0 <= tileMemoryValid <= 8` and `0 <= tileMemoryWrite < 8`; hence a tile request
issued there never indexes outside the array (it returns without a fault). -/
theorem capacity_bound (garbage : Fin TILE_MEMORY_SIZE → TileMemory) (ops : List Op)
    (s : MyPaintPythonTiledSurface) (tr : List (List PyCall))
    (hrun : run (mypaint_python_tiled_surface_new garbage) ops = .ok (s, tr)) :
    0 ≤ s.tileMemoryValid ∧ s.tileMemoryValid ≤ 8 ∧
    0 ≤ s.tileMemoryWrite ∧ s.tileMemoryWrite < 8 ∧
    ∀ (request : MyPaintTiledSurfaceTileRequestData) (pyErr : Bool) (rgba : Option Ptr),
      ∃ r, tile_request_start s request pyErr rgba = .ok r := by
  have hI := run_cacheInv garbage ops s tr hrun
  have ⟨h1, h2, h3, h4, _⟩ := hI
  simp only [tileMemorySize_cast] at h2 h4
  exact ⟨h1, h2, h3, h4, fun request pyErr rgba => tile_request_no_fault s hI request pyErr rgba⟩

theorem run_oneTile :
    run (mypaint_python_tiled_surface_new zeroSlots) oneTileOps
      = .ok (oneTileSurface, [[], [PyCall.get_tile_memory 2 3 false]]) := by
  rfl

/-! ## FIFO eviction -/

theorem lookup_miss (s : MyPaintPythonTiledSurface) (tx ty : Int)
    (hv : s.tileMemoryValid ≤ 8)
    (hno : ∀ j : Fin TILE_MEMORY_SIZE, (j.val : Int) < s.tileMemoryValid →
      ¬ slotMatches (s.tileMemory j) tx ty) :
    lookup s tx ty = .ok none := by
  unfold lookup
  apply lookupLoop_miss
  · unfold TILE_MEMORY_SIZE; omega
  · intro j _ hj
    exact hno j (by omega)

theorem coord_index_inj (L : List TileMemory) (h : (L.map coord).Nodup) (j k : Nat)
    (a b : TileMemory) (hj : L[j]? = some a) (hk : L[k]? = some b) (hab : coord a = coord b) :
    j = k := by
  have hj' : (L.map coord)[j]? = some (coord a) := by rw [List.getElem?_map, hj]; rfl
  have hk' : (L.map coord)[k]? = some (coord a) := by rw [List.getElem?_map, hk, hab]; rfl
  obtain ⟨h1, e1⟩ := List.getElem?_eq_some.mp hj'
  obtain ⟨h2, e2⟩ := List.getElem?_eq_some.mp hk'
  exact (List.Nodup.getElem_inj_iff h).mp (e1.trans e2.symm)

theorem filled_slot (s : MyPaintPythonTiledSurface) (L : List TileMemory) (hF : Filled s L)
    (i : Fin TILE_MEMORY_SIZE) (hi : (i.val : Int) < s.tileMemoryValid) :
    ∃ (j : Nat) (e : TileMemory), L[j]? = some e ∧ L.length ≤ j + 8 ∧ s.tileMemory i = e := by
  obtain ⟨hv, _, hslots⟩ := hF
  have hi8 : i.val < 8 := i.isLt
  rw [hv] at hi
  by_cases hn : L.length ≤ 8
  · have hlt : i.val < L.length := by omega
    refine ⟨i.val, L[i.val], List.getElem?_eq_getElem hlt, by omega, ?_⟩
    have := hslots i.val _ (List.getElem?_eq_getElem hlt) (by omega)
    have e : (⟨i.val % 8, Nat.mod_lt i.val (by decide)⟩ : Fin TILE_MEMORY_SIZE) = i :=
      Fin.ext (Nat.mod_eq_of_lt hi8)
    rw [e] at this
    exact this
  · have hjlt : L.length - 8 + (i.val + 8 - (L.length - 8) % 8) % 8 < L.length := by omega
    refine ⟨_, L[L.length - 8 + (i.val + 8 - (L.length - 8) % 8) % 8],
      List.getElem?_eq_getElem hjlt, by omega, ?_⟩
    have := hslots _ _ (List.getElem?_eq_getElem hjlt) (by omega)
    have e : (⟨(L.length - 8 + (i.val + 8 - (L.length - 8) % 8) % 8) % 8,
        Nat.mod_lt _ (by decide)⟩ : Fin TILE_MEMORY_SIZE) = i :=
      Fin.ext (by show (L.length - 8 + (i.val + 8 - (L.length - 8) % 8) % 8) % 8 = i.val; omega)
    rw [e] at this
    exact this

theorem filled_lookup_hit (s : MyPaintPythonTiledSurface) (L : List TileMemory)
    (hF : Filled s L) (hN : (L.map coord).Nodup) (j : Nat) (e : TileMemory)
    (hj : L[j]? = some e) (hwin : L.length ≤ j + 8) :
    lookup s e.tx e.ty = .ok (some e.rgba_p) := by
  have hF' := hF
  obtain ⟨hv, _, hslots⟩ := hF'
  obtain ⟨hjlt, _⟩ := List.getElem?_eq_some.mp hj
  have hslot := hslots j e hj hwin
  have hex : ∃ k : Fin TILE_MEMORY_SIZE, (k.val : Int) < s.tileMemoryValid ∧
      slotMatches (s.tileMemory k) e.tx e.ty := by
    refine ⟨⟨j % 8, Nat.mod_lt j (by decide)⟩, ?_, ?_⟩
    · rw [hv]; show ((j % 8 : Nat) : Int) < _; omega
    · rw [hslot]; exact ⟨rfl, rfl⟩
  obtain ⟨k, ⟨hk, hm⟩, hmin⟩ := exists_first_slot _ hex
  have hfirst : ∀ i : Fin TILE_MEMORY_SIZE, i.val < k.val →
      ¬ slotMatches (s.tileMemory i) e.tx e.ty := by
    intro i hi hmi
    exact hmin i hi ⟨by omega, hmi⟩
  obtain ⟨j2, e2, hj2, _, hs2⟩ := filled_slot s L hF k hk
  have hce : coord e2 = coord e := by
    rw [hs2] at hm
    unfold coord
    rw [hm.1, hm.2]
  have hjj : j2 = j := coord_index_inj L hN j2 j e2 e hj2 hj hce
  subst hjj
  have hee : e2 = e := by rw [hj2] at hj; injection hj
  have := lookup_hit s e.tx e.ty k hk hm hfirst
  rw [hs2, hee] at this
  exact this

theorem filled_lookup_miss (s : MyPaintPythonTiledSurface) (L : List TileMemory)
    (hF : Filled s L) (tx ty : Int)
    (hno : ∀ (j : Nat) (e : TileMemory), L[j]? = some e → L.length ≤ j + 8 →
      coord e ≠ (tx, ty)) :
    lookup s tx ty = .ok none := by
  apply lookup_miss
  · rw [hF.1]; omega
  · intro i hi hm
    obtain ⟨j, e, hj, hwin, hs⟩ := filled_slot s L hF i hi
    apply hno j e hj hwin
    rw [hs] at hm
    unfold coord
    rw [hm.1, hm.2]

theorem filled_insert (s : MyPaintPythonTiledSurface) (L : List TileMemory) (hF : Filled s L)
    (tx ty : Int) (p : Ptr) (hnew : (tx, ty) ∉ L.map coord) :
    ∃ s1 cs, step s (accessOp (Access.fresh tx ty p)) = .ok (s1, cs) ∧
      Filled s1 (L ++ [{ tx := tx, ty := ty, rgba_p := p }]) := by
  have hmiss : lookup s tx ty = .ok none := by
    apply filled_lookup_miss s L hF
    intro j e hj _ hc
    apply hnew
    rw [← hc]
    exact List.mem_map_of_mem coord ((List.mem_iff_getElem?).mpr ⟨j, hj⟩)
  obtain ⟨hv, hw, hslots⟩ := hF
  have hwf : (((⟨L.length % 8, Nat.mod_lt _ (by decide)⟩ : Fin TILE_MEMORY_SIZE).val : Nat) : Int)
      = s.tileMemoryWrite := by rw [hw]
  have hreq := request_insert s { tx := tx, ty := ty, readonly := false } p hmiss rfl
  rw [cacheInsert_ok s tx ty p _ hwf] at hreq
  refine ⟨_, _, by simp only [accessOp, step]; rw [hreq]; rfl, ?_, ?_, ?_⟩
  · show (if s.tileMemoryValid < (TILE_MEMORY_SIZE : Nat) then s.tileMemoryValid + 1
        else s.tileMemoryValid) = _
    rw [tileMemorySize_cast, List.length_append, List.length_singleton]
    split <;> omega
  · show (s.tileMemoryWrite + 1) % 8 = _
    rw [List.length_append, List.length_singleton]
    omega
  · intro j e hj hwin
    rw [List.length_append, List.length_singleton] at hwin
    show setSlot s.tileMemory _ _ _ = e
    by_cases hjn : j < L.length
    · rw [List.getElem?_append_left hjn] at hj
      have hne : (⟨j % 8, Nat.mod_lt j (by decide)⟩ : Fin TILE_MEMORY_SIZE)
          ≠ ⟨L.length % 8, Nat.mod_lt _ (by decide)⟩ := by
        intro he
        have : j % 8 = L.length % 8 := congrArg Fin.val he
        omega
      rw [setSlot_other _ _ _ _ hne]
      exact hslots j e hj (by omega)
    · have hlen := (List.getElem?_eq_some.mp hj).1
      rw [List.length_append, List.length_singleton] at hlen
      have hjeq : j = L.length := by omega
      subst hjeq
      rw [List.getElem?_append_right (le_refl _)] at hj
      simp at hj
      rw [setSlot_same]
      exact hj

theorem filled_cacheInv (s : MyPaintPythonTiledSurface) (L : List TileMemory)
    (hF : Filled s L) : CacheInv s := by
  obtain ⟨hv, hw, _⟩ := hF
  unfold CacheInv
  rw [tileMemorySize_cast, hv, hw]
  omega

theorem isHit_lookup (s : MyPaintPythonTiledSurface) (tx ty : Int) (h : isHit s tx ty = true) :
    ∃ p, lookup s tx ty = .ok (some p) := by
  unfold isHit at h
  cases hl : lookup s tx ty with
  | error e => rw [hl] at h; cases h
  | ok o =>
    cases o with
    | none => rw [hl] at h; cases h
    | some p => exact ⟨p, rfl⟩

theorem filled_run :
    ∀ (accs : List Access) (s : MyPaintPythonTiledSurface) (L : List TileMemory),
      Filled s L → ((L ++ freshTiles accs).map coord).Nodup → againHit s accs = true →
      ∃ s1 tr, run s (accs.map accessOp) = .ok (s1, tr) ∧ Filled s1 (L ++ freshTiles accs) := by
  intro accs
  induction accs with
  | nil =>
    intro s L hF _ _
    refine ⟨s, [], rfl, ?_⟩
    show Filled s (L ++ [])
    rw [List.append_nil]; exact hF
  | cons a as ih =>
    intro s L hF hN hH
    cases a with
    | fresh tx ty p =>
      have hassoc : L ++ freshTiles (Access.fresh tx ty p :: as)
          = (L ++ [{ tx := tx, ty := ty, rgba_p := p }]) ++ freshTiles as := by
        show L ++ ({ tx := tx, ty := ty, rgba_p := p } :: freshTiles as) = _
        rw [List.append_assoc]; rfl
      rw [hassoc] at hN ⊢
      have hnew : (tx, ty) ∉ L.map coord := by
        have h1 : ((L ++ [TileMemory.mk tx ty p]).map coord).Nodup := by
          rw [List.map_append] at hN
          exact (List.nodup_append.mp hN).1
        rw [List.map_append] at h1
        have hd := (List.nodup_append.mp h1).2.2
        intro hmem
        exact hd hmem (by simp [coord])
      obtain ⟨s1, cs, hstep, hF1⟩ := filled_insert s L hF tx ty p hnew
      have hH1 : againHit s1 as = true := by
        have hH' : (match step s (accessOp (Access.fresh tx ty p)) with
            | .ok (s1, _) => againHit s1 as
            | .error _ => false) = true := hH
        rw [hstep] at hH'
        exact hH'
      obtain ⟨s2, tr, hrun, hF2⟩ := ih s1 _ hF1 hN hH1
      exact ⟨s2, cs :: tr, run_cons_ok s s1 s2 _ _ cs tr hstep hrun, hF2⟩
    | again request pyErr rgba =>
      have hH' : (isHit s request.tx request.ty &&
          match step s (accessOp (Access.again request pyErr rgba)) with
          | .ok (s1, _) => againHit s1 as
          | .error _ => false) = true := hH
      rw [Bool.and_eq_true] at hH'
      obtain ⟨p, hl⟩ := isHit_lookup s _ _ hH'.1
      have hstep : step s (accessOp (Access.again request pyErr rgba)) = .ok (s, []) := by
        simp only [accessOp, step]
        rw [request_hit s request pyErr rgba p hl]
      have hH1 : againHit s as = true := by
        have := hH'.2
        rw [hstep] at this
        exact this
      have hN1 : ((L ++ freshTiles as).map coord).Nodup := hN
      obtain ⟨s2, tr, hrun, hF2⟩ := ih s L hF hN1 hH1
      exact ⟨s2, [] :: tr, run_cons_ok s s s2 _ _ [] tr hstep hrun, hF2⟩

/-- C3. FIFO eviction.  Start from an empty cache (`tileMemoryValid = 0`,
`tileMemoryWrite = 0`) and issue successful non-readonly tile requests for `n`
pairwise-distinct coordinates `c_1 .. c_n`, interleaved with any number of
requests that hit the cache.  The sequence runs without a fault, and a following
request for `c_i` (here `i = k + 1`) is a cache hit if and only if `i > n - 8`:
in that case it returns the location resolved for `c_i` with no host call and
no change of the surface, whatever the readonly flag and the host state;
otherwise the lookup misses and the store is asked. -/
theorem fifo_eviction (s0 : MyPaintPythonTiledSurface) (accs : List Access)
    (hv : s0.tileMemoryValid = 0) (hw : s0.tileMemoryWrite = 0)
    (hdistinct : ((freshTiles accs).map coord).Nodup)
    (hhit : againHit s0 accs = true) :
    ∃ s tr, run s0 (accs.map accessOp) = .ok (s, tr) ∧
      ∀ (k : Nat) (e : TileMemory), (freshTiles accs)[k]? = some e →
        (isHit s e.tx e.ty = true ↔ (freshTiles accs).length < (k + 1) + 8) ∧
        ∀ (readonly : Bool) (rgba : Option Ptr),
          ((freshTiles accs).length < (k + 1) + 8 →
            ∀ pyErr : Bool,
              tile_request_start s { tx := e.tx, ty := e.ty, readonly := readonly } pyErr rgba
                = .ok { surface := s, buffer := e.rgba_p, calls := [] }) ∧
          ((k + 1) + 8 ≤ (freshTiles accs).length →
            ∃ r, tile_request_start s { tx := e.tx, ty := e.ty, readonly := readonly } false rgba
                = .ok r ∧
              r.calls = [PyCall.get_tile_memory e.tx e.ty readonly]) := by
  have hF0 : Filled s0 [] := by
    refine ⟨by rw [hv]; rfl, by rw [hw]; rfl, ?_⟩
    intro j e hj
    cases hj
  obtain ⟨s, tr, hrun, hF⟩ := filled_run accs s0 [] hF0 hdistinct hhit
  rw [List.nil_append] at hF
  refine ⟨s, tr, hrun, ?_⟩
  intro k e hk
  have hin : (freshTiles accs).length < (k + 1) + 8 →
      lookup s e.tx e.ty = .ok (some e.rgba_p) := fun hwin =>
    filled_lookup_hit s _ hF hdistinct k e hk (by omega)
  have hout : (k + 1) + 8 ≤ (freshTiles accs).length → lookup s e.tx e.ty = .ok none := by
    intro hwin
    apply filled_lookup_miss s _ hF
    intro j e2 hj hjwin hc
    have : j = k := coord_index_inj _ hdistinct j k e2 e hj hk hc
    omega
  refine ⟨?_, ?_⟩
  · constructor
    · intro hh
      by_contra hcon
      have hl := hout (by omega)
      unfold isHit at hh
      rw [hl] at hh
      cases hh
    · intro hwin
      unfold isHit
      rw [hin hwin]
  · intro readonly rgba
    refine ⟨fun hwin pyErr => request_hit s _ pyErr rgba _ (hin hwin), ?_⟩
    intro hwin
    have hl := hout hwin
    obtain ⟨r, hr⟩ := tile_request_no_fault s (filled_cacheInv s _ hF)
      { tx := e.tx, ty := e.ty, readonly := readonly } false rgba
    refine ⟨r, hr, ?_⟩
    rcases tile_request_inv s _ false rgba r hr with hc | hc
    · rcases hc.2 with ⟨p, hp, _⟩ | ⟨_, hp, _⟩ | ⟨_, _, _, _, hcs⟩ | ⟨_, _, _, _, hcs⟩
      · rw [hl] at hp; cases hp
      · cases hp
      · exact hcs
      · exact hcs
    · exact hc.2.2.2.2.2

/-- The nine-tile scenario of C3: after tiles `(0,0) .. (8,0)`, tile `(0,0)` misses
although it was touched again, and tile `(1,0)` hits. -/
theorem fifo_eviction_witness :
    ∃ s tr, run emptyOpenSurface (nineTiles.map accessOp) = .ok (s, tr) ∧
      isHit s 0 0 = false ∧ isHit s 1 0 = true ∧
      tile_request_start s { tx := 1, ty := 0, readonly := true } false none
        = .ok { surface := s, buffer := 8192, calls := [] } := by
  obtain ⟨s, tr, hrun, h⟩ := fifo_eviction emptyOpenSurface nineTiles rfl rfl
    (by decide) (by rfl)
  refine ⟨s, tr, hrun, ?_, ?_, ?_⟩
  · have h0 := (h 0 { tx := 0, ty := 0, rgba_p := 4096 } rfl).1
    cases hh : isHit s 0 0 with
    | false => rfl
    | true =>
      have := h0.mp hh
      revert this
      decide
  · exact (h 1 { tx := 1, ty := 0, rgba_p := 8192 } rfl).1.mpr (by decide)
  · exact ((h 1 { tx := 1, ty := 0, rgba_p := 8192 } rfl).2 true none).1 (by decide) false

/-! ## The theorems at concrete inputs -/

/-- C1 at the surface reached by `begin_atomic; tile_request_start (2, 3)`: a
read-only request for `(2, 3)` returns the store's location. -/
theorem cache_transparency_witness :
    ∃ r, tile_request_start oneTileSurface { tx := 2, ty := 3, readonly := true } false
        (some (gridStore 2 3)) = .ok r ∧
      r.buffer = gridStore 2 3 ∧
      r.buffer = (uncached_dispatch { tx := 2, ty := 3, readonly := true } false
        (some (gridStore 2 3))).1 :=
  cache_transparency gridStore zeroSlots oneTileOps oneTileSurface _
    (by
      intro op hop
      simp only [oneTileOps, List.mem_cons, List.mem_singleton, List.not_mem_nil,
        or_false] at hop
      rcases hop with h | h
      · rw [h]; trivial
      · rw [h]; exact ⟨rfl, rfl⟩)
    run_oneTile { tx := 2, ty := 3, readonly := true }

/-- C2 at the surface reached by `begin_atomic; tile_request_start (2, 3)`. -/
theorem capacity_bound_witness :
    0 ≤ oneTileSurface.tileMemoryValid ∧ oneTileSurface.tileMemoryValid ≤ 8 ∧
    0 ≤ oneTileSurface.tileMemoryWrite ∧ oneTileSurface.tileMemoryWrite < 8 ∧
    ∀ (request : MyPaintTiledSurfaceTileRequestData) (pyErr : Bool) (rgba : Option Ptr),
      ∃ r, tile_request_start oneTileSurface request pyErr rgba = .ok r :=
  capacity_bound zeroSlots oneTileOps oneTileSurface _ run_oneTile

/-- C4 at concrete inputs: a request for the cached tile `(2, 3)` is answered
from slot 0 even with a host error pending, and after the write request for
`(2, 3)` inside a fresh region a second request returns the same location. -/
theorem cache_hit_short_circuit_witness :
    (∃ k : Fin TILE_MEMORY_SIZE,
      tile_request_start oneTileSurface { tx := 2, ty := 3, readonly := true } true none
        = .ok { surface := oneTileSurface, buffer := (oneTileSurface.tileMemory k).rgba_p,
                calls := [] }) ∧
    tile_request_start oneTileSurface { tx := 2, ty := 3, readonly := false } false none
      = .ok { surface := oneTileSurface, buffer := gridStore 2 3, calls := [] } := by
  constructor
  · obtain ⟨k, _, _, _, h⟩ := cache_hit_short_circuit.1 oneTileSurface
      { tx := 2, ty := 3, readonly := true } true none
      ⟨⟨0, by decide⟩, by decide, by decide⟩
    exact ⟨k, h⟩
  · exact cache_hit_short_circuit.2 zeroSlots [Op.begin_atomic]
      { tileMemory := zeroSlots, tileMemoryValid := 0, tileMemoryWrite := 0, atomic := 1 }
      [[]] rfl 2 3 false (some (gridStore 2 3))
      { surface := oneTileSurface, buffer := gridStore 2 3,
        calls := [PyCall.get_tile_memory 2 3 false] }
      rfl (Or.inr ⟨rfl, _, rfl⟩) false false none

/-- C5 at a read-only miss for tile `(5, 5)` that the store resolves. -/
theorem readonly_request_frame_witness :
    ∃ r, tile_request_start oneTileSurface { tx := 5, ty := 5, readonly := true } false
        (some 77) = .ok r ∧ r.surface = oneTileSurface := by
  have h := readonly_request_frame oneTileSurface { tx := 5, ty := 5, readonly := true }
    false (some 77) rfl
  obtain ⟨r, hr⟩ := h.1 (by decide)
  exact ⟨r, hr, h.2 r hr⟩

/-- C6 at a write miss for tile `(5, 5)` resolved to location `77`: slot 1 is
written, the cursor moves to 2 and two slots are valid. -/
theorem insert_postcondition_witness :
    ∃ r, tile_request_start oneTileSurface { tx := 5, ty := 5, readonly := false } false
        (some 77) = .ok r ∧
      r.surface.tileMemory ⟨1, by decide⟩ = { tx := 5, ty := 5, rgba_p := 77 } ∧
      r.surface.tileMemory ⟨0, by decide⟩ = { tx := 2, ty := 3, rgba_p := gridStore 2 3 } ∧
      r.surface.tileMemoryWrite = 2 ∧ r.surface.tileMemoryValid = 2 ∧
      r.surface.atomic = 1 ∧ r.buffer = 77 := by
  have h := insert_postcondition oneTileSurface { tx := 5, ty := 5, readonly := false } 77
    rfl rfl
  obtain ⟨r, hr⟩ := h.1 (by decide)
  obtain ⟨w, hw, h1, h2, h3, h4, h5, h6, _⟩ := h.2 r hr
  have hw1 : w = ⟨1, by decide⟩ := by
    apply Fin.ext
    have : (w.val : Int) = 1 := hw
    exact_mod_cast this
  subst hw1
  exact ⟨r, hr, h1, (h2 ⟨0, by decide⟩ (by decide)).trans rfl, h3.trans rfl, h4.trans rfl,
    h5.trans rfl, h6⟩

/-- C8 at depth 2 with a rectangle of positive width, on a host whose
`notify_observers` would fail: no notification, no clearing. -/
theorem end_atomic_nested_witness :
    ∃ r, end_atomic { oneTileSurface with atomic := 2 }
        { x := 32, y := 48, width := 16, height := 16 } none = .ok r ∧
      r.surface.atomic = 1 ∧ r.surface.tileMemoryValid = 1 ∧ r.surface.tileMemoryWrite = 1 ∧
      r.surface.tileMemory = oneTileSurface.tileMemory ∧ r.calls = [] := by
  obtain ⟨r, hr, h1, h2, h3, h4, h5⟩ :=
    end_atomic_nested { oneTileSurface with atomic := 2 }
      { x := 32, y := 48, width := 16, height := 16 } none (by decide)
  exact ⟨r, hr, h1.trans rfl, h2, h3, h4, h5⟩

/-! ## Faults, pending host errors and the returned rectangle -/

/-- C18. Pending host error: with a host error pending, a tile request that
misses the cache returns `request->buffer = NULL`, makes no store call and
leaves the surface (`atomic`, `tileMemoryValid`, `tileMemoryWrite`, all slots)
unchanged, whereas a request that hits the cache still returns the location of
the first matching valid slot, the lookup loop coming before the check. -/
theorem pending_host_error :
    (∀ (self : MyPaintPythonTiledSurface) (request : MyPaintTiledSurfaceTileRequestData)
        (rgba : Option Ptr),
      lookup self request.tx request.ty = .ok none →
      tile_request_start self request true rgba
        = .ok { surface := self, buffer := NULL, calls := [] }) ∧
    (∀ (self : MyPaintPythonTiledSurface) (request : MyPaintTiledSurfaceTileRequestData)
        (rgba : Option Ptr) (k : Fin TILE_MEMORY_SIZE),
      (k.val : Int) < self.tileMemoryValid →
      slotMatches (self.tileMemory k) request.tx request.ty →
      (∀ j : Fin TILE_MEMORY_SIZE, j.val < k.val →
        ¬ slotMatches (self.tileMemory j) request.tx request.ty) →
      tile_request_start self request true rgba
        = .ok { surface := self, buffer := (self.tileMemory k).rgba_p, calls := [] }) :=
  ⟨fun self request rgba h => request_pending self request rgba h,
   fun self request rgba k hk hm hfirst =>
     request_hit self request true rgba _ (lookup_hit self _ _ k hk hm hfirst)⟩

/-! ## Discipline of the caller -/

theorem step_end_idle (s s1 : MyPaintPythonTiledSurface) (bbox : MyPaintRectangle)
    (res : Option Unit) (cs : List PyCall) (h : step s (Op.end_atomic bbox res) = .ok (s1, cs)) :
    s1.atomic = 0 → s1.tileMemoryValid = 0 := by
  simp only [step] at h
  cases he : end_atomic s bbox res with
  | error e => rw [he] at h; cases h
  | ok r =>
    rw [he] at h
    injection h with h
    injection h with h1 _
    subst h1
    obtain ⟨_, _, hc | hc⟩ := end_atomic_inv s bbox res r he
    · intro _; rw [hc.2.1]
    · intro h0
      rw [hc.2.1] at h0
      have : s.atomic - 1 = 0 := h0
      exact absurd (by omega) hc.1

theorem step_request_uncached (s s1 : MyPaintPythonTiledSurface)
    (request : MyPaintTiledSurfaceTileRequestData) (pyErr : Bool) (rgba : Option Ptr)
    (cs : List PyCall)
    (hq : (request.readonly || pyErr || rgba.isNone) = true)
    (h : step s (Op.tile_request_start request pyErr rgba) = .ok (s1, cs)) : s1 = s := by
  simp only [step] at h
  cases ht : tile_request_start s request pyErr rgba with
  | error e => rw [ht] at h; cases h
  | ok r =>
    rw [ht] at h
    injection h with h
    injection h with h1 _
    subst h1
    rcases tile_request_inv s request pyErr rgba r ht with hc | hc
    · exact hc.1
    · obtain ⟨_, hp, hsome, hro, _⟩ := hc
      rw [hp, hsome, hro] at hq
      cases hq

theorem run_idle_empty :
    ∀ (ops : List Op) (d : Nat) (s s1 : MyPaintPythonTiledSurface) (tr : List (List PyCall)),
      s.atomic = (d : Int) → (d = 0 → s.tileMemoryValid = 0) →
      cachingInside d ops = true → run s ops = .ok (s1, tr) →
      (s1.atomic = 0 → s1.tileMemoryValid = 0) := by
  intro ops
  induction ops with
  | nil =>
    intro d s s1 tr hd hz _ h h0
    unfold run at h
    injection h with h
    injection h with h1 _
    subst h1
    exact hz (by rw [hd] at h0; exact_mod_cast h0)
  | cons op ops ih =>
    intro d s s1 tr hd hz hc h
    obtain ⟨s2, cs, tr1, hstep, hrun, _⟩ := run_cons_inv s s1 op ops tr h
    cases op with
    | begin_atomic =>
      have hs2 := (step_begin_inv s s2 cs hstep).1
      have hc2 : cachingInside (d + 1) ops = true := hc
      exact ih (d + 1) s2 s1 tr1
        (by rw [hs2]; show s.atomic + 1 = _; rw [hd]; push_cast; rfl)
        (fun h0 => by omega) hc2 hrun
    | end_atomic bbox res =>
      obtain ⟨hpos, hat, _⟩ := step_end_inv s s2 bbox res cs hstep
      have hidle := step_end_idle s s2 bbox res cs hstep
      have hc2 : cachingInside (d - 1) ops = true := hc
      have hd2 : s2.atomic = ((d - 1 : Nat) : Int) := by rw [hat, hd]; omega
      exact ih (d - 1) s2 s1 tr1 hd2
        (fun h0 => hidle (by rw [hd2, h0]; rfl)) hc2 hrun
    | tile_request_start request pyErr rgba =>
      have hc' : ((decide (0 < d) || request.readonly || pyErr || rgba.isNone)
          && cachingInside d ops) = true := hc
      rw [Bool.and_eq_true] at hc'
      have hat := (step_request_inv s s2 request pyErr rgba cs hstep).1
      refine ih d s2 s1 tr1 (by rw [hat, hd]) ?_ hc'.2 hrun
      intro h0
      have hq : (request.readonly || pyErr || rgba.isNone) = true := by
        have h1 := hc'.1
        rw [h0] at h1
        simpa using h1
      rw [step_request_uncached s s2 request pyErr rgba cs hq hstep]
      exact hz h0

theorem matched_append_left :
    ∀ (xs ys : List Op) (d : Nat), matched d (xs ++ ys) = true → matched d xs = true := by
  intro xs
  induction xs with
  | nil => intro ys d _; rfl
  | cons op xs ih =>
    intro ys d h
    cases op with
    | begin_atomic => exact ih ys (d + 1) h
    | end_atomic bbox res =>
      have h' : (decide (0 < d) && matched (d - 1) (xs ++ ys)) = true := h
      rw [Bool.and_eq_true] at h'
      show (decide (0 < d) && matched (d - 1) xs) = true
      rw [Bool.and_eq_true]
      exact ⟨h'.1, ih ys (d - 1) h'.2⟩
    | tile_request_start request pyErr rgba => exact ih ys d h

theorem run_append_inv :
    ∀ (xs ys : List Op) (s s2 : MyPaintPythonTiledSurface) (tr : List (List PyCall)),
      run s (xs ++ ys) = .ok (s2, tr) →
      ∃ s1 tr1 tr2, run s xs = .ok (s1, tr1) ∧ run s1 ys = .ok (s2, tr2) := by
  intro xs
  induction xs with
  | nil => intro ys s s2 tr h; exact ⟨s, [], tr, rfl, h⟩
  | cons op xs ih =>
    intro ys s s2 tr h
    obtain ⟨sa, cs, tra, hstep, hrun, _⟩ := run_cons_inv s s2 op (xs ++ ys) tr h
    obtain ⟨s1, tr1, tr2, h1, h2⟩ := ih ys sa s2 tra hrun
    exact ⟨s1, cs :: tr1, tr2, run_cons_ok s sa s1 op xs cs tr1 hstep h1, h2⟩

/-- C11, as the code has it.  In every state reached from a newly created surface
by a sequence of `begin_atomic`, `end_atomic` and `tile_request_start` calls in
which every request that can fill the cache (non-readonly, no host error
pending, resolved by the store) is issued while `atomic > 0`, `atomic = 0`
implies `tileMemoryValid = 0`. -/
theorem idle_implies_empty (garbage : Fin TILE_MEMORY_SIZE → TileMemory) (ops : List Op)
    (s : MyPaintPythonTiledSurface) (tr : List (List PyCall))
    (hdisc : cachingInside 0 ops = true)
    (hrun : run (mypaint_python_tiled_surface_new garbage) ops = .ok (s, tr))
    (hidle : s.atomic = 0) : s.tileMemoryValid = 0 :=
  run_idle_empty ops 0 _ s tr rfl (fun _ => rfl) hdisc hrun hidle

/-- C11 as stated fails: one write request for tile `(2, 3)` issued on a new
surface, outside any atomic region, is resolved by the store and cached, which
leaves `atomic = 0` with `tileMemoryValid = 1`. -/
theorem idle_cache_not_empty :
    run (mypaint_python_tiled_surface_new zeroSlots)
      [Op.tile_request_start { tx := 2, ty := 3, readonly := false } false
        (some (gridStore 2 3))]
      = .ok (idleCachedSurface, [[PyCall.get_tile_memory 2 3 false]]) ∧
    idleCachedSurface.atomic = 0 ∧ idleCachedSurface.tileMemoryValid = 1 :=
  ⟨rfl, rfl, rfl⟩

/-- C11 (amended) at `begin; write (2, 3); end`: the region is closed and the
cache is empty. -/
theorem idle_implies_empty_witness :
    ({ reopenedSurface with atomic := 0 } : MyPaintPythonTiledSurface).tileMemoryValid = 0 :=
  idle_implies_empty zeroSlots
    (oneTileOps ++ [Op.end_atomic { x := 32, y := 48, width := 16, height := 16 } (some ())])
    { reopenedSurface with atomic := 0 }
    [[], [PyCall.get_tile_memory 2 3 false], [PyCall.notify_observers 32 48 16 16]]
    rfl rfl rfl

/-! ## Which slots are valid after an insert -/

theorem cacheInsert_valid_slots (s s1 : MyPaintPythonTiledSurface) (tx ty : Int) (p : Ptr)
    (hI : CacheInv s) (h : cacheInsert s tx ty p = .ok s1) :
    ∃ w : Fin TILE_MEMORY_SIZE, (w.val : Int) = s.tileMemoryWrite ∧
      s1.tileMemory w = { tx := tx, ty := ty, rgba_p := p } ∧
      (w.val : Int) < s1.tileMemoryValid ∧
      (s.tileMemoryValid < 8 →
        (w.val : Int) = s.tileMemoryValid ∧ s1.tileMemoryValid = s.tileMemoryValid + 1) ∧
      (¬ s.tileMemoryValid < 8 → s1.tileMemoryValid = s.tileMemoryValid) ∧
      ∀ j : Fin TILE_MEMORY_SIZE, (j.val : Int) < s1.tileMemoryValid → j ≠ w →
        (j.val : Int) < s.tileMemoryValid ∧ s1.tileMemory j = s.tileMemory j := by
  obtain ⟨w, hw, hs1⟩ := cacheInsert_inv s s1 tx ty p h
  obtain ⟨h1, h2, h3, h4, h5⟩ := hI
  simp only [tileMemorySize_cast] at h2 h4 h5
  have hval : s1.tileMemoryValid
      = if s.tileMemoryValid < 8 then s.tileMemoryValid + 1 else s.tileMemoryValid := by
    rw [hs1]
    show (if s.tileMemoryValid < (TILE_MEMORY_SIZE : Nat) then s.tileMemoryValid + 1
      else s.tileMemoryValid) = _
    rw [tileMemorySize_cast]
  have hw8 : w.val < 8 := w.isLt
  refine ⟨w, hw, by rw [hs1]; exact setSlot_same _ _ _, ?_, ?_, ?_, ?_⟩
  · rw [hval]
    by_cases hv : s.tileMemoryValid < 8
    · rw [if_pos hv]; have := h5 hv; omega
    · rw [if_neg hv]; omega
  · intro hv
    rw [hval, if_pos hv]
    have := h5 hv
    exact ⟨by omega, rfl⟩
  · intro hv
    rw [hval, if_neg hv]
  · intro j hj hjw
    have hne : (j.val : Int) ≠ (w.val : Int) := fun he => hjw (Fin.ext (by exact_mod_cast he))
    refine ⟨?_, by rw [hs1]; exact setSlot_other _ _ _ _ hjw⟩
    rw [hval] at hj
    by_cases hv : s.tileMemoryValid < 8
    · rw [if_pos hv] at hj; have := h5 hv; omega
    · rw [if_neg hv] at hj; exact hj

theorem step_surface_cases (s s1 : MyPaintPythonTiledSurface) (op : Op) (cs : List PyCall)
    (h : step s op = .ok (s1, cs)) :
    (s1.tileMemory = s.tileMemory ∧
      (s1.tileMemoryValid = s.tileMemoryValid ∨ s1.tileMemoryValid = 0)) ∨
    (∃ request pyErr rgba p, op = Op.tile_request_start request pyErr rgba ∧
      lookup s request.tx request.ty = .ok none ∧
      cacheInsert s request.tx request.ty p = .ok s1) := by
  cases op with
  | begin_atomic =>
    have hs := (step_begin_inv s s1 cs h).1
    left; rw [hs]; exact ⟨rfl, Or.inl rfl⟩
  | end_atomic bbox res =>
    simp only [step] at h
    cases he : end_atomic s bbox res with
    | error e => rw [he] at h; cases h
    | ok r =>
      rw [he] at h
      injection h with h
      injection h with h1 _
      subst h1
      obtain ⟨_, _, hc | hc⟩ := end_atomic_inv s bbox res r he
      · left; rw [hc.2.1]; exact ⟨rfl, Or.inr rfl⟩
      · left; rw [hc.2.1]; exact ⟨rfl, Or.inl rfl⟩
  | tile_request_start request pyErr rgba =>
    simp only [step] at h
    cases ht : tile_request_start s request pyErr rgba with
    | error e => rw [ht] at h; cases h
    | ok r =>
      rw [ht] at h
      injection h with h
      injection h with h1 _
      subst h1
      rcases tile_request_inv s request pyErr rgba r ht with hc | hc
      · left; rw [hc.1]; exact ⟨rfl, Or.inl rfl⟩
      · right
        exact ⟨request, pyErr, rgba, r.buffer, rfl, hc.1, hc.2.2.2.2.1⟩

theorem step_noEntry (tx ty : Int) (s : MyPaintPythonTiledSurface) (op : Op)
    (s1 : MyPaintPythonTiledSurface) (cs : List PyCall) (hQ : Avoids tx ty op)
    (hP : CacheInv s ∧ NoEntry tx ty s) (h : step s op = .ok (s1, cs)) :
    CacheInv s1 ∧ NoEntry tx ty s1 := by
  refine ⟨step_cacheInv s op s1 cs hP.1 h, ?_⟩
  rcases step_surface_cases s s1 op cs h with ⟨hm, hv | hv⟩ | ⟨request, pyErr, rgba, p, hop, _, hins⟩
  · intro i hi
    rw [hm]
    rw [hv] at hi
    exact hP.2 i hi
  · intro i hi
    rw [hv] at hi
    omega
  · obtain ⟨w, _, hslot, _, _, _, hrest⟩ := cacheInsert_valid_slots s s1 _ _ p hP.1 hins
    rw [hop] at hQ
    intro i hi
    by_cases hiw : i = w
    · rw [hiw, hslot]
      exact fun hm => hQ ⟨hm.1, hm.2⟩
    · obtain ⟨hlt, hsame⟩ := hrest i hi hiw
      rw [hsame]
      exact hP.2 i hlt

theorem step_distinctKeys (s : MyPaintPythonTiledSurface) (op : Op)
    (s1 : MyPaintPythonTiledSurface) (cs : List PyCall)
    (hP : CacheInv s ∧ DistinctKeys s) (h : step s op = .ok (s1, cs)) :
    CacheInv s1 ∧ DistinctKeys s1 := by
  refine ⟨step_cacheInv s op s1 cs hP.1 h, ?_⟩
  rcases step_surface_cases s s1 op cs h with ⟨hm, hv | hv⟩ | ⟨request, pyErr, rgba, p, _, hl, hins⟩
  · intro i j hi hj
    rw [hm]
    rw [hv] at hi hj
    exact hP.2 i j hi hj
  · intro i j hi
    rw [hv] at hi
    omega
  · obtain ⟨w, _, hslot, _, _, _, hrest⟩ := cacheInsert_valid_slots s s1 _ _ p hP.1 hins
    obtain ⟨_, hno⟩ := lookup_none_inv s _ _ hl
    have hclash : ∀ j : Fin TILE_MEMORY_SIZE, (j.val : Int) < s1.tileMemoryValid → j ≠ w →
        coord (s1.tileMemory j) ≠ coord (s1.tileMemory w) := by
      intro j hj hjw hc
      obtain ⟨hlt, hsame⟩ := hrest j hj hjw
      rw [hsame, hslot] at hc
      apply hno j hlt
      unfold coord at hc
      injection hc with hx hy
      exact ⟨hx, hy⟩
    intro i j hi hj hc
    by_cases hiw : i = w
    · by_cases hjw : j = w
      · rw [hiw, hjw]
      · rw [hiw] at hc
        exact absurd hc.symm (hclash j hj hjw)
    · by_cases hjw : j = w
      · rw [hjw] at hc
        exact absurd hc (hclash i hi hiw)
      · obtain ⟨hlti, hsi⟩ := hrest i hi hiw
        obtain ⟨hltj, hsj⟩ := hrest j hj hjw
        rw [hsi, hsj] at hc
        exact hP.2 i j hlti hltj hc

theorem request_miss_calls (s : MyPaintPythonTiledSurface)
    (request : MyPaintTiledSurfaceTileRequestData) (rgba : Option Ptr) (r : RequestResult)
    (hl : lookup s request.tx request.ty = .ok none)
    (hr : tile_request_start s request false rgba = .ok r) :
    r.calls = [PyCall.get_tile_memory request.tx request.ty request.readonly] ∧
    r.buffer = rgba.getD NULL := by
  rcases tile_request_inv s request false rgba r hr with hc | hc
  · rcases hc.2 with ⟨p, hp, _⟩ | ⟨_, hp, _⟩ | ⟨_, _, hn, hb, hcs⟩ | ⟨_, _, hsome, _, hcs⟩
    · rw [hl] at hp; cases hp
    · cases hp
    · exact ⟨hcs, by rw [hn, hb]; rfl⟩
    · exact ⟨hcs, by rw [hsome]; rfl⟩
  · obtain ⟨_, _, hsome, _, _, hcs⟩ := hc
    exact ⟨hcs, by rw [hsome]; rfl⟩

/-! ## Clearing, coupling and distinct keys -/

/-- C16. Cursor/validity coupling: in every state reached from a newly created
surface, `tileMemoryValid < 8` implies `tileMemoryWrite = tileMemoryValid`.
Hence, for a tile request issued there: when it raises `tileMemoryValid`, the
raise is by one and the slot that becomes valid (index the old
`tileMemoryValid`) is the slot just written; and in every case each slot valid
afterwards is either the slot just written or was valid before and is
unchanged, so no stale slot becomes visible to the lookup. -/
theorem cursor_validity_coupling (garbage : Fin TILE_MEMORY_SIZE → TileMemory)
    (ops : List Op) (s : MyPaintPythonTiledSurface) (tr : List (List PyCall))
    (hrun : run (mypaint_python_tiled_surface_new garbage) ops = .ok (s, tr)) :
    (s.tileMemoryValid < 8 → s.tileMemoryWrite = s.tileMemoryValid) ∧
    ∀ (request : MyPaintTiledSurfaceTileRequestData) (pyErr : Bool) (rgba : Option Ptr)
      (r : RequestResult), tile_request_start s request pyErr rgba = .ok r →
      (r.surface.tileMemoryValid ≠ s.tileMemoryValid →
        ∃ w : Fin TILE_MEMORY_SIZE, (w.val : Int) = s.tileMemoryValid ∧
          (w.val : Int) = s.tileMemoryWrite ∧
          r.surface.tileMemoryValid = s.tileMemoryValid + 1 ∧
          r.surface.tileMemory w
            = { tx := request.tx, ty := request.ty, rgba_p := r.buffer }) ∧
      ∀ j : Fin TILE_MEMORY_SIZE, (j.val : Int) < r.surface.tileMemoryValid →
        ((j.val : Int) = s.tileMemoryWrite ∧
          r.surface.tileMemory j
            = { tx := request.tx, ty := request.ty, rgba_p := r.buffer }) ∨
        ((j.val : Int) < s.tileMemoryValid ∧ r.surface.tileMemory j = s.tileMemory j) := by
  have hI := run_cacheInv garbage ops s tr hrun
  have ⟨_, h2, _, _, h5⟩ := hI
  rw [tileMemorySize_cast] at h5
  refine ⟨h5, ?_⟩
  intro request pyErr rgba r hr
  rcases tile_request_inv s request pyErr rgba r hr with hc | hc
  · refine ⟨fun hne => absurd (by rw [hc.1]) hne, fun j hj => Or.inr ?_⟩
    rw [hc.1] at hj ⊢
    exact ⟨hj, rfl⟩
  · obtain ⟨_, _, _, _, hins, _⟩ := hc
    obtain ⟨w, hw, hslot, _, hlt, hge, hrest⟩ :=
      cacheInsert_valid_slots s r.surface _ _ _ hI hins
    constructor
    · intro hne
      by_cases hv : s.tileMemoryValid < 8
      · exact ⟨w, (hlt hv).1, hw, (hlt hv).2, hslot⟩
      · exact absurd (hge hv) hne
    · intro j hj
      by_cases hjw : j = w
      · left; rw [hjw]; exact ⟨hw, hslot⟩
      · right; exact hrest j hj hjw

/-- C16 at the surface reached by `begin; write (2, 3)`: cursor and validity
count are both 1, and a write request for `(5, 5)` makes slot 1, the slot it
writes, the newly valid one. -/
theorem cursor_validity_coupling_witness :
    oneTileSurface.tileMemoryWrite = oneTileSurface.tileMemoryValid ∧
    ∀ r, tile_request_start oneTileSurface { tx := 5, ty := 5, readonly := false } false
        (some 77) = .ok r →
      ∀ j : Fin TILE_MEMORY_SIZE, (j.val : Int) < r.surface.tileMemoryValid →
        ((j.val : Int) = 1 ∧ r.surface.tileMemory j = { tx := 5, ty := 5, rgba_p := r.buffer }) ∨
        ((j.val : Int) < 1 ∧ r.surface.tileMemory j = oneTileSurface.tileMemory j) :=
  ⟨(cursor_validity_coupling zeroSlots oneTileOps oneTileSurface _ run_oneTile).1 (by decide),
   fun r hr => ((cursor_validity_coupling zeroSlots oneTileOps oneTileSurface _ run_oneTile).2
      { tx := 5, ty := 5, readonly := false } false (some 77) r hr).2⟩

/-- C17. No duplicate keys: in every state reached from a newly created surface
the coordinates in slots `0 .. tileMemoryValid - 1` are pairwise distinct;
hence a valid slot holding `(tx, ty)` is the only one, and it is the one whose
location the lookup loop returns. -/
theorem no_duplicate_keys (garbage : Fin TILE_MEMORY_SIZE → TileMemory)
    (ops : List Op) (s : MyPaintPythonTiledSurface) (tr : List (List PyCall))
    (hrun : run (mypaint_python_tiled_surface_new garbage) ops = .ok (s, tr)) :
    (∀ i j : Fin TILE_MEMORY_SIZE, (i.val : Int) < s.tileMemoryValid →
      (j.val : Int) < s.tileMemoryValid →
      (s.tileMemory i).tx = (s.tileMemory j).tx → (s.tileMemory i).ty = (s.tileMemory j).ty →
      i = j) ∧
    ∀ (tx ty : Int) (k : Fin TILE_MEMORY_SIZE), (k.val : Int) < s.tileMemoryValid →
      slotMatches (s.tileMemory k) tx ty →
      lookup s tx ty = .ok (some (s.tileMemory k).rgba_p) ∧
      ∀ j : Fin TILE_MEMORY_SIZE, (j.val : Int) < s.tileMemoryValid →
        slotMatches (s.tileMemory j) tx ty → j = k := by
  have hP0 : CacheInv (mypaint_python_tiled_surface_new garbage) ∧
      DistinctKeys (mypaint_python_tiled_surface_new garbage) :=
    ⟨new_cacheInv garbage, fun i j hi => by
      have : (i.val : Int) < 0 := hi
      omega⟩
  obtain ⟨_, hD⟩ := run_invariant (fun x => CacheInv x ∧ DistinctKeys x) (fun _ => True)
    (fun x op x1 cs _ hP hs => step_distinctKeys x op x1 cs hP hs)
    ops _ s tr (fun _ _ => trivial) hP0 hrun
  have hkey : ∀ i j : Fin TILE_MEMORY_SIZE, (i.val : Int) < s.tileMemoryValid →
      (j.val : Int) < s.tileMemoryValid →
      (s.tileMemory i).tx = (s.tileMemory j).tx → (s.tileMemory i).ty = (s.tileMemory j).ty →
      i = j := by
    intro i j hi hj hx hy
    apply hD i j hi hj
    unfold coord
    rw [hx, hy]
  refine ⟨hkey, ?_⟩
  intro tx ty k hk hm
  have honly : ∀ j : Fin TILE_MEMORY_SIZE, (j.val : Int) < s.tileMemoryValid →
      slotMatches (s.tileMemory j) tx ty → j = k := by
    intro j hj hmj
    exact hkey j k hj hk (hmj.1.trans hm.1.symm) (hmj.2.trans hm.2.symm)
  refine ⟨lookup_hit s tx ty k hk hm ?_, honly⟩
  intro j hj hmj
  have := honly j (by omega) hmj
  rw [this] at hj
  exact lt_irrefl _ hj

/-- C17 at the surface reached by `begin; write (2, 3)`: the lookup of `(2, 3)`
returns the location in slot 0. -/
theorem no_duplicate_keys_witness :
    lookup oneTileSurface 2 3
      = .ok (some (oneTileSurface.tileMemory ⟨0, by decide⟩).rgba_p) :=
  ((no_duplicate_keys zeroSlots oneTileOps oneTileSurface _ run_oneTile).2 2 3
    ⟨0, by decide⟩ (by decide) (by decide)).1

/-- C18 at concrete inputs, a host error pending: the request for the uncached
tile `(9, 9)` returns `NULL` with no call, the request for the cached tile
`(2, 3)` returns its location. -/
theorem pending_host_error_witness :
    tile_request_start oneTileSurface { tx := 9, ty := 9, readonly := false } true (some 77)
      = .ok { surface := oneTileSurface, buffer := NULL, calls := [] } ∧
    tile_request_start oneTileSurface { tx := 2, ty := 3, readonly := false } true (some 77)
      = .ok { surface := oneTileSurface, buffer := gridStore 2 3, calls := [] } :=
  ⟨pending_host_error.1 oneTileSurface { tx := 9, ty := 9, readonly := false } (some 77) rfl,
   pending_host_error.2 oneTileSurface { tx := 2, ty := 3, readonly := false } (some 77)
     ⟨0, by decide⟩ (by decide) (by decide) (fun j hj => absurd hj (Nat.not_lt_zero _))⟩

/-! ## Runs that stop at a fault -/

theorem run_cons_error (s : MyPaintPythonTiledSurface) (op : Op) (ops : List Op) (e : Fault)
    (h : step s op = .error e) : run s (op :: ops) = .error e := by
  unfold run
  rw [h]

theorem run_cons_error_of_ok (s s1 : MyPaintPythonTiledSurface) (op : Op) (ops : List Op)
    (cs : List PyCall) (e : Fault) (hs : step s op = .ok (s1, cs))
    (h : run s (op :: ops) = .error e) : run s1 ops = .error e := by
  unfold run at h
  rw [hs] at h
  simp only at h
  cases hr : run s1 ops with
  | error e1 =>
    rw [hr] at h
    injection h with h
    rw [h]
  | ok y =>
    rw [hr] at h
    cases h

theorem begin_atomic_bound (s s1 : MyPaintPythonTiledSurface) (h : begin_atomic s = .ok s1) :
    s.atomic < INT_MAX := by
  unfold begin_atomic at h
  by_cases ha : s.atomic = 0
  · rw [ha]; decide
  · rw [if_neg ha] at h
    exact (atomic_increment_inv s s1 h).2

theorem begin_atomic_overflow (s : MyPaintPythonTiledSurface)
    (hz : s.atomic = 0 → s.tileMemoryValid = 0) (hge : ¬ s.atomic < INT_MAX) :
    begin_atomic s = .error Fault.overflow := by
  unfold begin_atomic atomic_increment
  by_cases ha : s.atomic = 0
  · rw [if_pos ha, if_pos (hz ha), if_neg hge]
  · rw [if_neg ha, if_neg hge]

theorem step_begin_bound (s s1 : MyPaintPythonTiledSurface) (cs : List PyCall)
    (h : step s Op.begin_atomic = .ok (s1, cs)) : s.atomic < INT_MAX := by
  simp only [step] at h
  cases hb : begin_atomic s with
  | error e => rw [hb] at h; cases h
  | ok s2 => exact begin_atomic_bound s s2 hb

theorem run_tracks_depth :
    ∀ (xs ys : List Op) (d : Nat) (s s1 : MyPaintPythonTiledSurface)
      (tr : List (List PyCall)),
      s.atomic = (d : Int) → matched d (xs ++ ys) = true → run s xs = .ok (s1, tr) →
      ∃ d1 : Nat, s1.atomic = (d1 : Int) ∧ matched d1 ys = true := by
  intro xs
  induction xs with
  | nil =>
    intro ys d s s1 tr hd hm h
    unfold run at h
    injection h with h
    injection h with h1 _
    subst h1
    exact ⟨d, hd, hm⟩
  | cons op xs ih =>
    intro ys d s s1 tr hd hm h
    obtain ⟨s2, cs, tr1, hstep, hrun, _⟩ := run_cons_inv s s1 op xs tr h
    cases op with
    | begin_atomic =>
      have hs2 := (step_begin_inv s s2 cs hstep).1
      have hm2 : matched (d + 1) (xs ++ ys) = true := hm
      exact ih ys (d + 1) s2 s1 tr1
        (by rw [hs2]; show s.atomic + 1 = _; rw [hd]; push_cast; rfl) hm2 hrun
    | end_atomic bbox res =>
      obtain ⟨hpos, hat, _⟩ := step_end_inv s s2 bbox res cs hstep
      have hm' : (decide (0 < d) && matched (d - 1) (xs ++ ys)) = true := hm
      rw [Bool.and_eq_true, decide_eq_true_eq] at hm'
      exact ih ys (d - 1) s2 s1 tr1 (by rw [hat, hd]; omega) hm'.2 hrun
    | tile_request_start request pyErr rgba =>
      have hat := (step_request_inv s s2 request pyErr rgba cs hstep).1
      have hm2 : matched d (xs ++ ys) = true := hm
      exact ih ys d s2 s1 tr1 (by rw [hat, hd]) hm2 hrun

theorem run_disciplined :
    ∀ (ops : List Op) (d : Nat) (s : MyPaintPythonTiledSurface),
      s.atomic = (d : Int) → CacheInv s → (d = 0 → s.tileMemoryValid = 0) →
      matched d ops = true → requestsInside d ops = true →
      (∀ e, run s ops = .error e → e ≠ Fault.assertion) ∧
      (notifyAnswered ops = true → shallow d ops = true →
        ∃ s1 tr, run s ops = .ok (s1, tr)) := by
  intro ops
  induction ops with
  | nil =>
    intro d s _ _ _ _ _
    refine ⟨fun e he => ?_, fun _ _ => ⟨s, [], rfl⟩⟩
    unfold run at he
    cases he
  | cons op ops ih =>
    intro d s hd hI hz hm hq
    cases op with
    | begin_atomic =>
      have hz' : s.atomic = 0 → s.tileMemoryValid = 0 := fun h0 =>
        hz (by rw [hd] at h0; exact_mod_cast h0)
      have hm2 : matched (d + 1) ops = true := hm
      have hq2 : requestsInside (d + 1) ops = true := hq
      by_cases hlt : s.atomic < INT_MAX
      · have hstep : step s Op.begin_atomic = .ok ({ s with atomic := s.atomic + 1 }, []) := by
          simp only [step]; rw [begin_atomic_ok s hz' hlt]
        obtain ⟨ih1, ih2⟩ := ih (d + 1) { s with atomic := s.atomic + 1 }
          (by show s.atomic + 1 = _; rw [hd]; push_cast; rfl) hI (fun h0 => by omega) hm2 hq2
        refine ⟨fun e he => ih1 e (run_cons_error_of_ok s _ _ ops _ e hstep he), ?_⟩
        intro hn hs
        have hs' : (decide ((d : Int) < INT_MAX) && shallow (d + 1) ops) = true := hs
        rw [Bool.and_eq_true] at hs'
        obtain ⟨s1, tr, hr⟩ := ih2 hn hs'.2
        exact ⟨s1, _, run_cons_ok s _ s1 _ ops _ tr hstep hr⟩
      · have hstep : step s Op.begin_atomic = .error Fault.overflow := by
          simp only [step]; rw [begin_atomic_overflow s hz' hlt]
        have hrun := run_cons_error s Op.begin_atomic ops _ hstep
        refine ⟨fun e he => ?_, ?_⟩
        · rw [hrun] at he
          injection he with he
          rw [← he]
          exact fun h => by cases h
        · intro _ hs
          have hs' : (decide ((d : Int) < INT_MAX) && shallow (d + 1) ops) = true := hs
          rw [Bool.and_eq_true, decide_eq_true_eq] at hs'
          rw [hd] at hlt
          exact absurd hs'.1 hlt
    | end_atomic bbox res =>
      have hm' : (decide (0 < d) && matched (d - 1) ops) = true := hm
      rw [Bool.and_eq_true, decide_eq_true_eq] at hm'
      have hq2 : requestsInside (d - 1) ops = true := hq
      have hpos : 0 < s.atomic := by rw [hd]; exact_mod_cast hm'.1
      by_cases hn : s.atomic = 1 ∧ 0 < bbox.width ∧ res = none
      · obtain ⟨h1, hw, hr⟩ := hn
        have hstep : step s (Op.end_atomic bbox res) = .error (Fault.nullDeref
            [PyCall.notify_observers bbox.x bbox.y bbox.width bbox.height]) := by
          simp only [step]; rw [hr, end_atomic_null s bbox h1 hw]
        have hrun := run_cons_error s (Op.end_atomic bbox res) ops _ hstep
        refine ⟨fun e he => ?_, ?_⟩
        · rw [hrun] at he
          injection he with he
          rw [← he]
          exact fun h => by cases h
        · intro hna _
          have hna' : (res.isSome && notifyAnswered ops) = true := hna
          rw [Bool.and_eq_true, hr] at hna'
          exact absurd hna'.1 (by decide)
      · obtain ⟨r, hr⟩ := end_atomic_returns s bbox res hpos
          (fun h1 hw hr => hn ⟨h1, hw, hr⟩)
        have hstep : step s (Op.end_atomic bbox res) = .ok (r.surface, r.calls) := by
          simp only [step]; rw [hr]
        have hI2 := step_cacheInv s _ _ _ hI hstep
        obtain ⟨_, hat, _⟩ := step_end_inv s _ bbox res _ hstep
        have hidle := step_end_idle s _ bbox res _ hstep
        obtain ⟨ih1, ih2⟩ := ih (d - 1) r.surface (by rw [hat, hd]; omega) hI2
          (fun h0 => hidle (by rw [hat, hd]; omega)) hm'.2 hq2
        refine ⟨fun e he => ih1 e (run_cons_error_of_ok s _ _ ops _ e hstep he), ?_⟩
        intro hna hs
        have hna' : (res.isSome && notifyAnswered ops) = true := hna
        rw [Bool.and_eq_true] at hna'
        have hs2 : shallow (d - 1) ops = true := hs
        obtain ⟨s1, tr, hr1⟩ := ih2 hna'.2 hs2
        exact ⟨s1, _, run_cons_ok s _ s1 _ ops _ tr hstep hr1⟩
    | tile_request_start request pyErr rgba =>
      have hm2 : matched d ops = true := hm
      have hq' : (decide (0 < d) && requestsInside d ops) = true := hq
      rw [Bool.and_eq_true, decide_eq_true_eq] at hq'
      obtain ⟨r, hr⟩ := tile_request_no_fault s hI request pyErr rgba
      have hstep : step s (Op.tile_request_start request pyErr rgba)
          = .ok (r.surface, r.calls) := by
        simp only [step]; rw [hr]
      have hI2 := step_cacheInv s _ _ _ hI hstep
      obtain ⟨hat, _⟩ := step_request_inv s _ request pyErr rgba _ hstep
      obtain ⟨ih1, ih2⟩ := ih d r.surface (by rw [hat, hd]) hI2
        (fun h0 => by omega) hm2 hq'.2
      refine ⟨fun e he => ih1 e (run_cons_error_of_ok s _ _ ops _ e hstep he), ?_⟩
      intro hna hs
      have hna2 : notifyAnswered ops = true := hna
      have hs2 : shallow d ops = true := hs
      obtain ⟨s1, tr, hr1⟩ := ih2 hna2 hs2
      exact ⟨s1, _, run_cons_ok s _ s1 _ ops _ tr hstep hr1⟩

theorem run_atomic_range (garbage : Fin TILE_MEMORY_SIZE → TileMemory) (ops : List Op)
    (s : MyPaintPythonTiledSurface) (tr : List (List PyCall))
    (hrun : run (mypaint_python_tiled_surface_new garbage) ops = .ok (s, tr)) :
    0 ≤ s.atomic ∧ s.atomic ≤ INT_MAX := by
  refine run_invariant (fun s => 0 ≤ s.atomic ∧ s.atomic ≤ INT_MAX) (fun _ => True) ?_ ops _ s tr
    (fun _ _ => trivial) ⟨le_refl _, (by decide : (0 : Int) ≤ INT_MAX)⟩ hrun
  intro s op s1 cs _ hP hs
  cases op with
  | begin_atomic =>
    have h := (step_begin_inv s s1 cs hs).1
    have hb := step_begin_bound s s1 cs hs
    rw [h]
    show 0 ≤ s.atomic + 1 ∧ s.atomic + 1 ≤ INT_MAX
    omega
  | end_atomic bbox res =>
    obtain ⟨hpos, hat, _⟩ := step_end_inv s s1 bbox res cs hs
    omega
  | tile_request_start request pyErr rgba =>
    have h := (step_request_inv s s1 request pyErr rgba cs hs).1
    omega

/-! ## The unchecked result of `notify_observers` -/

/-- C7, evaluated on the code.  With `atomic = 1`: (a) when `bbox.width <= 0` or
`notify_observers` hands back an object, `end_atomic` returns with `atomic = 0`,
`tileMemoryValid = 0`, `tileMemoryWrite = 0`, the slots as before, having called
`notify_observers` exactly once with `(bbox.x, bbox.y, bbox.width, bbox.height)`
if `bbox.width > 0` and not at all otherwise; (b) when `bbox.width > 0` and
`notify_observers` hands back `NULL`, the unchecked `Py_DECREF(res)` dereferences
it after that one call and `end_atomic` does not return; (c) so it is when the
region of `oneTileSurface` is closed with rectangle `(32, 48, 16, 16)`. -/
theorem end_atomic_outermost :
    (∀ (self : MyPaintPythonTiledSurface) (bbox : MyPaintRectangle) (res : Option Unit),
      self.atomic = 1 → (0 < bbox.width → res ≠ none) →
      ∃ r, end_atomic self bbox res = .ok r ∧
        r.surface.atomic = 0 ∧ r.surface.tileMemoryValid = 0 ∧
        r.surface.tileMemoryWrite = 0 ∧ r.surface.tileMemory = self.tileMemory ∧
        (0 < bbox.width →
          r.calls = [PyCall.notify_observers bbox.x bbox.y bbox.width bbox.height]) ∧
        (bbox.width ≤ 0 → r.calls = [])) ∧
    (∀ (self : MyPaintPythonTiledSurface) (bbox : MyPaintRectangle),
      self.atomic = 1 → 0 < bbox.width →
      end_atomic self bbox none = .error (Fault.nullDeref
        [PyCall.notify_observers bbox.x bbox.y bbox.width bbox.height])) ∧
    end_atomic oneTileSurface { x := 32, y := 48, width := 16, height := 16 } none
      = .error (Fault.nullDeref [PyCall.notify_observers 32 48 16 16]) := by
  refine ⟨?_, fun self bbox h1 hw => end_atomic_null self bbox h1 hw, rfl⟩
  intro self bbox res h1 hres
  obtain ⟨r, hr⟩ := end_atomic_returns self bbox res (by omega) (fun _ hw => hres hw)
  obtain ⟨_, _, hc | hc⟩ := end_atomic_inv self bbox res r hr
  · obtain ⟨_, hs, hcalls⟩ := hc
    refine ⟨r, hr, by rw [hs], by rw [hs], by rw [hs], by rw [hs], ?_, ?_⟩
    · intro hw; rw [hcalls, if_pos hw]
    · intro hw; rw [hcalls, if_neg (by omega)]
  · exact absurd h1 hc.1

/-- C19, evaluated on the code.  (a) Whenever `end_atomic` returns, nested or
outermost, notification or not, its return value is the base primitive's
rectangle in all four fields; (b) with `atomic > 0` it returns unless it calls
`notify_observers` (outermost, `bbox.width > 0`) and is handed `NULL`; (c) in
that case it returns nothing: closing the region of `oneTileSurface` with
rectangle `(0, 0, 64, 64)` ends in the dereference of `NULL`. -/
theorem end_atomic_returns_bbox :
    (∀ (self : MyPaintPythonTiledSurface) (bbox : MyPaintRectangle) (res : Option Unit)
        (r : EndResult), end_atomic self bbox res = .ok r →
      r.ret.x = bbox.x ∧ r.ret.y = bbox.y ∧ r.ret.width = bbox.width ∧
      r.ret.height = bbox.height) ∧
    (∀ (self : MyPaintPythonTiledSurface) (bbox : MyPaintRectangle) (res : Option Unit),
      0 < self.atomic → (self.atomic = 1 → 0 < bbox.width → res ≠ none) →
      ∃ r, end_atomic self bbox res = .ok r) ∧
    end_atomic oneTileSurface { x := 0, y := 0, width := 64, height := 64 } none
      = .error (Fault.nullDeref [PyCall.notify_observers 0 0 64 64]) := by
  refine ⟨?_, fun self bbox res ha hres => end_atomic_returns self bbox res ha hres, rfl⟩
  intro self bbox res r hr
  have hret := (end_atomic_inv self bbox res r hr).2.1
  exact ⟨by rw [hret], by rw [hret], by rw [hret], by rw [hret]⟩

/-- C14, evaluated on the code.  (a) `end_atomic` in a state with `atomic = 0`
fails its assertion: no surface comes back, nothing is decremented, cleared or
notified; (b) its assertion fails if and only if `atomic <= 0`; (c) every state
reached from a newly created surface without a fault has
`0 <= atomic <= INT_MAX`; but (d) `end_atomic` does not succeed for every
`atomic > 0`: in the state reached by `begin; write (2, 3)`, where `atomic = 1`,
closing with rectangle `(32, 48, 16, 16)` on a host whose `notify_observers`
hands back `NULL` ends in the dereference of `NULL`. -/
theorem unbalanced_end_faults :
    (∀ (self : MyPaintPythonTiledSurface) (bbox : MyPaintRectangle) (res : Option Unit),
      self.atomic = 0 → end_atomic self bbox res = .error Fault.assertion) ∧
    (∀ (self : MyPaintPythonTiledSurface) (bbox : MyPaintRectangle) (res : Option Unit),
      end_atomic self bbox res = .error Fault.assertion ↔ self.atomic ≤ 0) ∧
    (∀ (garbage : Fin TILE_MEMORY_SIZE → TileMemory) (ops : List Op)
        (s : MyPaintPythonTiledSurface) (tr : List (List PyCall)),
      run (mypaint_python_tiled_surface_new garbage) ops = .ok (s, tr) →
      0 ≤ s.atomic ∧ s.atomic ≤ INT_MAX) ∧
    (run (mypaint_python_tiled_surface_new zeroSlots) oneTileOps
        = .ok (oneTileSurface, [[], [PyCall.get_tile_memory 2 3 false]]) ∧
      0 < oneTileSurface.atomic ∧
      run (mypaint_python_tiled_surface_new zeroSlots)
        (oneTileOps ++ [Op.end_atomic { x := 32, y := 48, width := 16, height := 16 } none])
        = .error (Fault.nullDeref [PyCall.notify_observers 32 48 16 16])) := by
  have hzero : ∀ (self : MyPaintPythonTiledSurface) (bbox : MyPaintRectangle)
      (res : Option Unit), self.atomic ≤ 0 →
      end_atomic self bbox res = .error Fault.assertion := by
    intro self bbox res h
    unfold end_atomic
    rw [if_neg (by omega)]
  refine ⟨fun self bbox res h => hzero self bbox res (by omega), ?_,
    fun garbage ops s tr h => run_atomic_range garbage ops s tr h, rfl, by decide, rfl⟩
  intro self bbox res
  constructor
  · intro h
    rcases end_atomic_error_inv self bbox res _ h with ⟨_, hle⟩ | ⟨he, _⟩
    · exact hle
    · cases he
  · exact hzero self bbox res

/-- C10, evaluated on the code.  (a) A request (readonly or not) that misses the
cache and whose store call fails returns `request->buffer = NULL` after the one
store call and leaves the surface (`atomic`, `tileMemoryValid`,
`tileMemoryWrite`, every slot) as it was.  (b) The failed call leaves the host's
error indicator set: after `begin; write (2, 3); failed write (9, 9)` the
surface is the one reached without the failed request, with an error pending.
(c) The following `end_atomic` does not behave as without the failed request:
its `notify_observers` call is handed back `NULL` and the unchecked
`Py_DECREF(res)` dereferences it, whereas (d) the same stroke without the failed
request notifies once and returns. -/
theorem failed_resolution_atomic :
    (∀ (self : MyPaintPythonTiledSurface) (request : MyPaintTiledSurfaceTileRequestData),
      lookup self request.tx request.ty = .ok none →
      tile_request_start self request false none
        = .ok { surface := self, buffer := NULL,
                calls := [PyCall.get_tile_memory request.tx request.ty request.readonly] }) ∧
    hostedRun newHosted (failedStrokeOps.take 3)
      = .ok ({ surface := oneTileSurface, errorPending := true },
          [[], [PyCall.get_tile_memory 2 3 false], [PyCall.get_tile_memory 9 9 false]]) ∧
    hostedRun newHosted failedStrokeOps
      = .error (Fault.nullDeref [PyCall.notify_observers 32 48 16 16]) ∧
    hostedRun newHosted plainStrokeOps
      = .ok ({ surface := { oneTileSurface with
                 atomic := 0, tileMemoryValid := 0, tileMemoryWrite := 0 },
               errorPending := false },
          [[], [PyCall.get_tile_memory 2 3 false], [PyCall.notify_observers 32 48 16 16]]) :=
  ⟨fun self request h => request_failed self request h, rfl, rfl, rfl⟩

/-- C9. One notification per top-level region.  For every sequence of
`begin_atomic`, `end_atomic` and `tile_request_start` calls from a newly created
surface in which no `end_atomic` lacks an open `begin_atomic` (every well-nested
sequence is one), with arbitrary tile requests: (a) whenever it runs, the
`notify_observers` calls made by each call are the prescribed ones: a single
call carrying the returned rectangle, made by the `end_atomic` that brings the
depth from 1 to 0 when that rectangle has `width > 0`, and none by any other
call; (b) an `end_atomic` of the sequence that does not return is one that
brought the depth from 1 to 0 with `width > 0` and stopped after that single
call, on its `NULL` result; (c) the sequence runs to its end when the tile
requests are inside regions, every `notify_observers` hands back an object and
fewer than `INT_MAX` regions are open at every `begin_atomic`. -/
theorem one_notification_per_region (garbage : Fin TILE_MEMORY_SIZE → TileMemory)
    (ops : List Op) (hm : matched 0 ops = true) :
    (∀ s tr, run (mypaint_python_tiled_surface_new garbage) ops = .ok (s, tr) →
      tr.map notifications = expectedNotifications 0 ops) ∧
    (∀ pre bbox res post s tr e, ops = pre ++ Op.end_atomic bbox res :: post →
      run (mypaint_python_tiled_surface_new garbage) pre = .ok (s, tr) →
      end_atomic s bbox res = .error e →
      e = Fault.nullDeref [PyCall.notify_observers bbox.x bbox.y bbox.width bbox.height] ∧
      s.atomic = 1 ∧ 0 < bbox.width) ∧
    (requestsInside 0 ops = true → notifyAnswered ops = true → shallow 0 ops = true →
      ∃ s tr, run (mypaint_python_tiled_surface_new garbage) ops = .ok (s, tr)) := by
  refine ⟨fun s tr h => run_notifications ops 0 _ s tr rfl hm h, ?_, ?_⟩
  · intro pre bbox res post s tr e he hrun herr
    rw [he] at hm
    obtain ⟨d1, hd1, hm1⟩ := run_tracks_depth pre _ 0 _ s tr rfl hm hrun
    have hm' : (decide (0 < d1) && matched (d1 - 1) post) = true := hm1
    rw [Bool.and_eq_true, decide_eq_true_eq] at hm'
    rcases end_atomic_error_inv s bbox res e herr with ⟨_, hle⟩ | ⟨hn, h1, hw, _⟩
    · rw [hd1] at hle
      have : (0 : Int) < (d1 : Int) := by exact_mod_cast hm'.1
      omega
    · exact ⟨hn, h1, hw⟩
  · intro hq hna hs
    exact (run_disciplined ops 0 _ rfl (new_cacheInv garbage) (fun _ => rfl) hm hq).2 hna hs

/-- C9 at `begin; begin; write (2, 3); end; end`: the inner `end_atomic` makes no
notification although its rectangle has positive width, the outer one makes
exactly one, with `(32, 48, 16, 16)`. -/
theorem one_notification_per_region_witness :
    ∃ s tr, run (mypaint_python_tiled_surface_new zeroSlots) nestedOps = .ok (s, tr) ∧
      tr.map notifications = [[], [], [], [], [PyCall.notify_observers 32 48 16 16]] := by
  have h := one_notification_per_region zeroSlots nestedOps rfl
  obtain ⟨s, tr, hrun⟩ := h.2.2 rfl rfl (by decide)
  exact ⟨s, tr, hrun, (h.1 s tr hrun).trans rfl⟩

/-! ## Requests outside regions and after a region -/

/-- C12, as the code has it.  `tile_request_start` does not test `atomic`.
(a) In every state, whatever `atomic` is, if a valid entry for `(tx, ty)` exists
the request returns the location of the first such entry, without a host call
and without changing the surface, whatever the readonly flag and the host state.
(b) In every state, whatever `atomic` is, if no valid entry for `(tx, ty)`
exists and no host error is pending, the request is resolved through the store:
one `get_tile_memory` call, whose answer (`NULL` on failure) is the buffer.
(c) In every state with `atomic = 0` reached from a newly created surface by a
sequence whose cache-filling requests are issued inside atomic regions, no valid
entry exists, and every request with no host error pending returns, resolved
through the store. -/
theorem store_resolution_when_uncached :
    (∀ (self : MyPaintPythonTiledSurface) (request : MyPaintTiledSurfaceTileRequestData)
        (pyErr : Bool) (rgba : Option Ptr),
      (∃ k : Fin TILE_MEMORY_SIZE, (k.val : Int) < self.tileMemoryValid ∧
        slotMatches (self.tileMemory k) request.tx request.ty) →
      ∃ k : Fin TILE_MEMORY_SIZE, (k.val : Int) < self.tileMemoryValid ∧
        slotMatches (self.tileMemory k) request.tx request.ty ∧
        (∀ j : Fin TILE_MEMORY_SIZE, j.val < k.val →
          ¬ slotMatches (self.tileMemory j) request.tx request.ty) ∧
        tile_request_start self request pyErr rgba
          = .ok { surface := self, buffer := (self.tileMemory k).rgba_p, calls := [] }) ∧
    (∀ (self : MyPaintPythonTiledSurface) (request : MyPaintTiledSurfaceTileRequestData)
        (rgba : Option Ptr) (r : RequestResult),
      (¬ ∃ k : Fin TILE_MEMORY_SIZE, (k.val : Int) < self.tileMemoryValid ∧
        slotMatches (self.tileMemory k) request.tx request.ty) →
      tile_request_start self request false rgba = .ok r →
      r.calls = [PyCall.get_tile_memory request.tx request.ty request.readonly] ∧
      r.buffer = rgba.getD NULL) ∧
    (∀ (garbage : Fin TILE_MEMORY_SIZE → TileMemory) (ops : List Op)
        (s : MyPaintPythonTiledSurface) (tr : List (List PyCall)),
      cachingInside 0 ops = true →
      run (mypaint_python_tiled_surface_new garbage) ops = .ok (s, tr) →
      s.atomic = 0 →
      ∀ (request : MyPaintTiledSurfaceTileRequestData) (rgba : Option Ptr),
        (¬ ∃ k : Fin TILE_MEMORY_SIZE, (k.val : Int) < s.tileMemoryValid ∧
          slotMatches (s.tileMemory k) request.tx request.ty) ∧
        ∃ r, tile_request_start s request false rgba = .ok r ∧
          r.calls = [PyCall.get_tile_memory request.tx request.ty request.readonly] ∧
          r.buffer = rgba.getD NULL) := by
  refine ⟨?_, ?_, ?_⟩
  · intro self request pyErr rgba hex
    obtain ⟨k, ⟨hk, hm⟩, hmin⟩ := exists_first_slot
      (fun k => (k.val : Int) < self.tileMemoryValid ∧
        slotMatches (self.tileMemory k) request.tx request.ty) hex
    have hfirst : ∀ j : Fin TILE_MEMORY_SIZE, j.val < k.val →
        ¬ slotMatches (self.tileMemory j) request.tx request.ty := by
      intro j hj hmj
      exact hmin j hj ⟨by omega, hmj⟩
    exact ⟨k, hk, hm, hfirst,
      request_hit self request pyErr rgba _ (lookup_hit self _ _ k hk hm hfirst)⟩
  · intro self request rgba r hno hr
    cases hl : lookup self request.tx request.ty with
    | error e =>
      unfold tile_request_start at hr
      rw [hl] at hr
      cases hr
    | ok o =>
      cases o with
      | none => exact request_miss_calls self request rgba r hl hr
      | some p =>
        obtain ⟨k, hk, hm, _, _⟩ := lookup_some_inv self _ _ p hl
        exact absurd ⟨k, hk, hm⟩ hno
  · intro garbage ops s tr hdisc hrun hidle request rgba
    have hv := run_idle_empty ops 0 _ s tr rfl (fun _ => rfl) hdisc hrun hidle
    have hno : ¬ ∃ k : Fin TILE_MEMORY_SIZE, (k.val : Int) < s.tileMemoryValid ∧
        slotMatches (s.tileMemory k) request.tx request.ty := by
      rintro ⟨k, hk, _⟩
      rw [hv] at hk
      omega
    have hl : lookup s request.tx request.ty = .ok none := by
      apply lookup_miss
      · rw [hv]; decide
      · intro j hj; rw [hv] at hj; omega
    obtain ⟨r, hr⟩ := tile_request_no_fault s (run_cacheInv garbage ops s tr hrun)
      request false rgba
    exact ⟨hno, r, hr, request_miss_calls s request rgba r hl hr⟩

/-- C12 as stated fails, twice.  After one write request for tile `(2, 3)` on a
new surface (`atomic = 0` throughout), a second request for `(2, 3)` is answered
with the cached location, not with the store's answer, and no store call is
made.  And on a new surface (`atomic = 0`, empty cache) a request issued while a
host error is pending returns `NULL` without being resolved through the
store. -/
theorem idle_cache_answers :
    run (mypaint_python_tiled_surface_new zeroSlots)
      [Op.tile_request_start { tx := 2, ty := 3, readonly := false } false
        (some (gridStore 2 3))]
      = .ok (idleCachedSurface, [[PyCall.get_tile_memory 2 3 false]]) ∧
    idleCachedSurface.atomic = 0 ∧
    tile_request_start idleCachedSurface { tx := 2, ty := 3, readonly := false } false (some 77)
      = .ok { surface := idleCachedSurface, buffer := gridStore 2 3, calls := [] } ∧
    (mypaint_python_tiled_surface_new zeroSlots).atomic = 0 ∧
    tile_request_start (mypaint_python_tiled_surface_new zeroSlots)
        { tx := 2, ty := 3, readonly := false } true (some 77)
      = .ok { surface := mypaint_python_tiled_surface_new zeroSlots, buffer := NULL,
              calls := [] } :=
  ⟨rfl, rfl, rfl, rfl, rfl⟩

/-- C12 (amended) at concrete inputs: in the idle state that caches `(2, 3)` a
read-only request for `(2, 3)` gets the cached location although a host error is
pending, and a request for `(5, 5)` asks the store; on a new surface a request
for `(2, 3)` asks the store. -/
theorem store_resolution_when_uncached_witness :
    (∃ k : Fin TILE_MEMORY_SIZE,
      tile_request_start idleCachedSurface { tx := 2, ty := 3, readonly := true } true none
        = .ok { surface := idleCachedSurface,
                buffer := (idleCachedSurface.tileMemory k).rgba_p, calls := [] }) ∧
    (∀ r, tile_request_start idleCachedSurface { tx := 5, ty := 5, readonly := true } false none
        = .ok r → r.calls = [PyCall.get_tile_memory 5 5 true] ∧ r.buffer = NULL) ∧
    (∃ r, tile_request_start (mypaint_python_tiled_surface_new zeroSlots)
        { tx := 2, ty := 3, readonly := true } false (some 77) = .ok r ∧
      r.calls = [PyCall.get_tile_memory 2 3 true] ∧ r.buffer = 77) := by
  refine ⟨?_, ?_, ?_⟩
  · obtain ⟨k, _, _, _, h⟩ := store_resolution_when_uncached.1 idleCachedSurface
      { tx := 2, ty := 3, readonly := true } true none
      ⟨⟨0, by decide⟩, by decide, by decide⟩
    exact ⟨k, h⟩
  · intro r hr
    refine store_resolution_when_uncached.2.1 idleCachedSurface
      { tx := 5, ty := 5, readonly := true } none r ?_ hr
    rintro ⟨k, hk, hm⟩
    have hk0 : k = ⟨0, by decide⟩ := by
      apply Fin.ext
      have : (k.val : Int) < 1 := hk
      show k.val = 0
      omega
    rw [hk0] at hm
    revert hm
    decide
  · exact (store_resolution_when_uncached.2.2 zeroSlots [] _ [] rfl rfl rfl
      { tx := 2, ty := 3, readonly := true } (some 77)).2

/-- C13, as the code has it.  Let `end_atomic` close a top-level region
(`atomic = 1`) and return.  A subsequent `begin_atomic` returns; every slot
still holds what it held at the close, so an entry for `(tx, ty)` cached in the
region is still physically present; and after any further calls that are not
tile requests for `(tx, ty)`, the first tile request for `(tx, ty)` misses the
cache and, no host error being pending, makes one `get_tile_memory` call whose
answer (`NULL` on failure) is the buffer.  This holds for every coordinate
`(tx, ty)`, cached in the region or not. -/
theorem clearing_forces_fresh_resolution (s : MyPaintPythonTiledSurface)
    (bbox : MyPaintRectangle) (res : Option Unit) (r1 : EndResult) (tx ty : Int)
    (hat : s.atomic = 1) (hend : end_atomic s bbox res = .ok r1) :
    ∃ s2, begin_atomic r1.surface = .ok s2 ∧
      s2.tileMemory = s.tileMemory ∧
      (∀ k : Fin TILE_MEMORY_SIZE, slotMatches (s.tileMemory k) tx ty →
        slotMatches (s2.tileMemory k) tx ty) ∧
      ∀ (ops : List Op) (s3 : MyPaintPythonTiledSurface) (tr : List (List PyCall)),
        (∀ op ∈ ops, Avoids tx ty op) → run s2 ops = .ok (s3, tr) →
        lookup s3 tx ty = .ok none ∧
        ∀ (readonly : Bool) (rgba : Option Ptr),
          ∃ r, tile_request_start s3 { tx := tx, ty := ty, readonly := readonly } false rgba
              = .ok r ∧
            r.calls = [PyCall.get_tile_memory tx ty readonly] ∧
            r.buffer = rgba.getD NULL := by
  obtain ⟨_, _, hc | hc⟩ := end_atomic_inv s bbox res r1 hend
  · obtain ⟨_, hs1, _⟩ := hc
    have hb : begin_atomic r1.surface
        = .ok { r1.surface with atomic := r1.surface.atomic + 1 } := by
      apply begin_atomic_ok
      · intro _; rw [hs1]
      · rw [hs1]; exact (by decide : (0 : Int) < INT_MAX)
    refine ⟨_, hb, by rw [hs1], fun k hk => by rw [hs1]; exact hk, ?_⟩
    intro ops s3 tr hav hrun
    have hP0 : CacheInv ({ r1.surface with atomic := r1.surface.atomic + 1 } :
          MyPaintPythonTiledSurface) ∧
        NoEntry tx ty { r1.surface with atomic := r1.surface.atomic + 1 } := by
      rw [hs1]
      constructor
      · unfold CacheInv
        simp [tileMemorySize_cast]
      · intro i hi
        have : (i.val : Int) < 0 := hi
        omega
    obtain ⟨hI3, hN3⟩ := run_invariant (fun x => CacheInv x ∧ NoEntry tx ty x) (Avoids tx ty)
      (fun x op x1 cs hq hP hs => step_noEntry tx ty x op x1 cs hq hP hs)
      ops _ s3 tr hav hP0 hrun
    have hl : lookup s3 tx ty = .ok none :=
      lookup_miss s3 tx ty (by have := hI3.2.1; rw [tileMemorySize_cast] at this; exact this) hN3
    refine ⟨hl, fun readonly rgba => ?_⟩
    obtain ⟨r, hr⟩ := tile_request_no_fault s3 hI3
      { tx := tx, ty := ty, readonly := readonly } false rgba
    exact ⟨r, hr, request_miss_calls s3 _ rgba r hl hr⟩
  · exact absurd hat hc.1

/-- C13 as stated fails: a store failure inside a region leaves the host error
pending; the region is closed with an empty rectangle and a new one is opened;
the first request for the previously cached tile `(2, 3)` then misses the cache
and returns `NULL` without any store call.  The same on the surface reached by
`begin; write (2, 3); end; begin` for any pending host error. -/
theorem pending_error_skips_store :
    hostedRun newHosted staleErrorOps
      = .ok ({ surface := reopenedSurface, errorPending := true },
          [[], [PyCall.get_tile_memory 2 3 false], [PyCall.get_tile_memory 9 9 false],
           [], [], []]) ∧
    run (mypaint_python_tiled_surface_new zeroSlots)
      (oneTileOps ++ [Op.end_atomic { x := 32, y := 48, width := 16, height := 16 } (some ()),
        Op.begin_atomic])
      = .ok (reopenedSurface,
          [[], [PyCall.get_tile_memory 2 3 false], [PyCall.notify_observers 32 48 16 16], []]) ∧
    lookup reopenedSurface 2 3 = .ok none ∧
    tile_request_start reopenedSurface { tx := 2, ty := 3, readonly := false } true (some 77)
      = .ok { surface := reopenedSurface, buffer := NULL, calls := [] } :=
  ⟨rfl, rfl, rfl, rfl⟩

/-- C13 (amended) at the region that cached `(2, 3)`, closed with rectangle
`(32, 48, 16, 16)`: after `end; begin` and a write request for `(5, 5)`, slot 0
still holds `(2, 3)` and the lookup of `(2, 3)` misses. -/
theorem clearing_forces_fresh_resolution_witness :
    ∃ s2, begin_atomic ({ oneTileSurface with
        atomic := 0, tileMemoryValid := 0, tileMemoryWrite := 0 } :
        MyPaintPythonTiledSurface) = .ok s2 ∧
      slotMatches (s2.tileMemory ⟨0, by decide⟩) 2 3 ∧
      ∀ s3 tr,
        run s2 [Op.tile_request_start { tx := 5, ty := 5, readonly := false } false (some 77)]
          = .ok (s3, tr) →
        lookup s3 2 3 = .ok none := by
  obtain ⟨s2, h2, _, h3, h4⟩ := clearing_forces_fresh_resolution oneTileSurface
    { x := 32, y := 48, width := 16, height := 16 } (some ())
    { surface := { oneTileSurface with atomic := 0, tileMemoryValid := 0, tileMemoryWrite := 0 },
      ret := { x := 32, y := 48, width := 16, height := 16 },
      calls := [PyCall.notify_observers 32 48 16 16] } 2 3 rfl rfl
  refine ⟨s2, h2, h3 ⟨0, by decide⟩ (by decide), fun s3 tr hrun => (h4 _ s3 tr ?_ hrun).1⟩
  intro op hop
  rw [List.mem_singleton] at hop
  rw [hop]
  show ¬ ((5 : Int) = 2 ∧ (5 : Int) = 3)
  decide

/-! ## Disciplined use and the range of the counter -/

/-- C7 at the closing of the region of `oneTileSurface` with rectangle
`(32, 48, 16, 16)` on a host whose `notify_observers` hands back an object:
exactly one notification, carrying those four values, and the cleared state. -/
theorem end_atomic_outermost_witness :
    ∃ r, end_atomic oneTileSurface { x := 32, y := 48, width := 16, height := 16 } (some ())
        = .ok r ∧
      r.surface.atomic = 0 ∧ r.surface.tileMemoryValid = 0 ∧ r.surface.tileMemoryWrite = 0 ∧
      r.surface.tileMemory = oneTileSurface.tileMemory ∧
      r.calls = [PyCall.notify_observers 32 48 16 16] := by
  obtain ⟨r, hr, h1, h2, h3, h4, h5, _⟩ := end_atomic_outermost.1 oneTileSurface
    { x := 32, y := 48, width := 16, height := 16 } (some ()) rfl (fun _ => by decide)
  exact ⟨r, hr, h1, h2, h3, h4, h5 (by decide)⟩

/-- C19 at the closing of the region of `oneTileSurface` with rectangle
`(32, 48, 16, 16)` on a host whose `notify_observers` hands back an object. -/
theorem end_atomic_returns_bbox_witness :
    ∃ r, end_atomic oneTileSurface { x := 32, y := 48, width := 16, height := 16 } (some ())
        = .ok r ∧
      r.ret.x = 32 ∧ r.ret.y = 48 ∧ r.ret.width = 16 ∧ r.ret.height = 16 := by
  obtain ⟨r, hr⟩ := end_atomic_returns_bbox.2.1 oneTileSurface
    { x := 32, y := 48, width := 16, height := 16 } (some ()) (by decide)
    (fun _ _ => by decide)
  exact ⟨r, hr, end_atomic_returns_bbox.1 _ _ _ r hr⟩

/-- C14 at concrete inputs: `end_atomic` on a new surface fails its assertion,
and the surface reached by `begin; write (2, 3)` has its depth in range. -/
theorem unbalanced_end_faults_witness :
    end_atomic (mypaint_python_tiled_surface_new zeroSlots)
        { x := 32, y := 48, width := 16, height := 16 } (some ()) = .error Fault.assertion ∧
    0 ≤ oneTileSurface.atomic ∧ oneTileSurface.atomic ≤ INT_MAX :=
  ⟨unbalanced_end_faults.1 _ _ _ rfl,
   unbalanced_end_faults.2.2.1 zeroSlots oneTileOps oneTileSurface _ run_oneTile⟩

/-- C10 at a failed resolution of tile `(9, 9)`: `NULL`, one store call, the
surface unchanged. -/
theorem failed_resolution_atomic_witness :
    tile_request_start oneTileSurface { tx := 9, ty := 9, readonly := false } false none
      = .ok { surface := oneTileSurface, buffer := NULL,
              calls := [PyCall.get_tile_memory 9 9 false] } :=
  failed_resolution_atomic.1 oneTileSurface { tx := 9, ty := 9, readonly := false } rfl

end PythonTiledSurface
